import Mathlib

/-!
# Options market making core

A shallow embedding of the quantitative core of the repository: the numerics
utilities (`core/utils.cpp`), the volatility surface (`core/models/volsurface.cpp`),
the pricing calculator (`core/workers/calculator.cpp`) and the market simulator
(`core/workers/simulator.cpp`).

Conventions of the embedding.

* A C++ `double` is an element of a linear ordered field.  The interpolation and
  ladder code is written once, for every such field, so that it runs on `ℚ` and
  is reasoned about on `ℝ`; the code that calls `std::log`, `std::exp`,
  `std::sqrt` or `std::erf` lives on `ℝ`.
* A `std::vector` is a `List`.  Reading outside the bounds of a vector
  (`v[i]`, `v.front()`, `v.back()`) is undefined behaviour in the source and is
  `none` here, so every function that indexes returns an `Option`.
* The random draws of the simulator are explicit arguments.
-/

namespace omm

/-! ## Vectors -/

/-- Element access `v[i]` with an `int` index; defined only inside the bounds. -/
def vecAt {β : Type} (v : List β) (i : Int) : Option β :=
  if i < 0 then none else v[i.toNat]?

/-- The loop of `std::lower_bound` over the range `[first, first + len)`: halve the
range, keep the right part when the middle element is less than the value.  The first
argument bounds the number of iterations; `len` iterations always suffice. -/
def lowerBoundLoop {α : Type} [LinearOrderedField α] (xs : List α) (v : α) :
    Nat → Nat → Nat → Nat
  | 0, first, _ => first
  | fuel + 1, first, len =>
    if len = 0 then first
    else
      let half := len / 2
      let middle := first + half
      match xs[middle]? with
      | some x =>
        if x < v then lowerBoundLoop xs v fuel (middle + 1) (len - half - 1)
        else lowerBoundLoop xs v fuel first half
      | none => first

/-- The distance from `begin()` of `std::lower_bound(xs.begin(), xs.end(), v)`. -/
def lowerBound {α : Type} [LinearOrderedField α] (xs : List α) (v : α) : Nat :=
  lowerBoundLoop xs v xs.length 0 xs.length

/-! ## Machine integers -/

/-- The largest value of a 32-bit `int`. -/
def INT_MAX : Int := 2 ^ 31 - 1

/-- The smallest value of a 32-bit `int`. -/
def INT_MIN : Int := -2 ^ 31

/-! ## Numerics utilities (`core/utils.cpp`) -/

/-- Utils::getNormStrike. -/
noncomputable def Utils.getNormStrike (strike forward expiry atmVol : ℝ) : ℝ :=
  Real.log (strike / forward) / (atmVol * Real.sqrt (expiry / 365))

/-- Utils::getStrikeFromNormStrike. -/
noncomputable def Utils.getStrikeFromNormStrike (normStrike forward expiry atmVol : ℝ) : ℝ :=
  forward * Real.exp (normStrike * atmVol * Real.sqrt (expiry / 365))

/-- Utils::getForwardPrice. -/
noncomputable def Utils.getForwardPrice (spot interestRate expiry : ℝ) : ℝ :=
  let tte := expiry / 365
  spot * Real.exp (interestRate * tte)

/-- The list Utils::getNormStrikes builds when its loop counter stays in the range of
`int`: the strikes `spot + z * strikeStep` for
`z = -maxStrikeStepDist, ..., maxStrikeStepDist`, each normalised.  The function with
the range of its counter is `Utils.getNormStrikesInt`.  The header gives the last two
arguments the defaults 40 and 50.0; callers here pass them. -/
noncomputable def Utils.getNormStrikes (spot interestRate expiry atmVol : ℝ)
    (maxStrikeStepDist : Int) (strikeStep : ℝ) : List ℝ :=
  let forward := Utils.getForwardPrice spot interestRate expiry
  (List.range (2 * maxStrikeStepDist + 1).toNat).map fun j =>
    let z : Int := -maxStrikeStepDist + j
    let strike := spot + z * strikeStep
    Utils.getNormStrike strike forward expiry atmVol

/-- The loop of Utils::getNormStrikes from the `int` counter `z`: while
`z <= maxStrikeStepDist`, push the normalized strike of `spot + z * strikeStep` and
increment `z`.  The increment `++z` is undefined when `z` is `INT_MAX`. -/
noncomputable def Utils.normStrikesLoop (spot forward expiry atmVol : ℝ)
    (maxStrikeStepDist : Int) (strikeStep : ℝ) (z : Int) (normStrikes : List ℝ) :
    Option (List ℝ) :=
  if z ≤ maxStrikeStepDist then
    let strike := spot + (z : ℝ) * strikeStep
    let ns := Utils.getNormStrike strike forward expiry atmVol
    if z = INT_MAX then none
    else
      Utils.normStrikesLoop spot forward expiry atmVol maxStrikeStepDist strikeStep (z + 1)
        (normStrikes ++ [ns])
  else some normStrikes
termination_by (maxStrikeStepDist + 1 - z).toNat
decreasing_by omega

/-- Utils::getNormStrikes with its `int` loop counter: the counter starts at
`-maxStrikeStepDist`, which is undefined for `INT_MIN`, and the function has no result
when the counter overflows. -/
noncomputable def Utils.getNormStrikesInt (spot interestRate expiry atmVol : ℝ)
    (maxStrikeStepDist : Int) (strikeStep : ℝ) : Option (List ℝ) :=
  let forward := Utils.getForwardPrice spot interestRate expiry
  if maxStrikeStepDist = INT_MIN then none
  else
    Utils.normStrikesLoop spot forward expiry atmVol maxStrikeStepDist strikeStep
      (-maxStrikeStepDist) []

/-- Utils::getForwardPrice at an infinite expiry, `+∞` or (when `negative`) `-∞`, in
IEEE arithmetic.  `tte` is that infinity; `interestRate * tte` is `-∞` when the sign of
the rate is opposite to that of the expiry, `+∞` when the signs agree and NaN when the
rate is 0.  `exp` maps `-∞` to 0, and the price is `spot * 0`; it maps `+∞` to `+∞` and
NaN to NaN, and the price is an infinity or a NaN: `none`, a `double` that is no real
number. -/
noncomputable def Utils.getForwardPriceAtInfinity (spot interestRate : ℝ)
    (negative : Bool) : Option ℝ :=
  if (negative = true ∧ 0 < interestRate) ∨ (negative = false ∧ interestRate < 0) then
    some (spot * 0)
  else none

/-! ## Volatility surface (`core/models/volsurface.cpp`) -/

/-- The class `Smile`: normalized strikes paired with implied vols. -/
structure Smile (α : Type) where
  normStrikes : List α
  volPoints : List α

/-- Smile::getVol. -/
def Smile.getVol {α : Type} [LinearOrderedField α] (s : Smile α) (normStrike : α) :
    Option α := do
  let back ← s.normStrikes.getLast?
  if normStrike > back then s.volPoints.getLast?
  else do
    let front ← s.normStrikes.head?
    if normStrike < front then s.volPoints.head?
    else do
      let idx : Int := lowerBound s.normStrikes normStrike
      let normStrikeUp ← vecAt s.normStrikes idx
      let normStrikeDown ← vecAt s.normStrikes (idx - 1)
      let volPointUp ← vecAt s.volPoints idx
      let volPointDown ← vecAt s.volPoints (idx - 1)
      let weight :=
        if normStrikeUp ≠ normStrikeDown then
          (normStrike - normStrikeDown) / (normStrikeUp - normStrikeDown)
        else 0
      pure (volPointDown + weight * (volPointUp - volPointDown))

/-- The class `VolSurface`. -/
structure VolSurface (α : Type) where
  expiries : List α
  smiles : List (Smile α)
  atmOneMonthVolEst : α

/-- The index clamp of `VolSurface::getVolNormStrike`: an index at or past
`smiles.size()` becomes `smiles.size() - 1`, then an index at or below 0 becomes 1. -/
def VolSurface.clampIdx (size : Nat) (idx : Int) : Int :=
  let idx := if idx ≥ (size : Int) then (size : Int) - 1 else idx
  if idx ≤ 0 then 1 else idx

/-- The index `VolSurface::getVolNormStrike` uses on its interpolating branch:
the lower bound of the expiry, clamped. -/
def VolSurface.termIdx {α : Type} [LinearOrderedField α] (s : VolSurface α) (expiry : α) :
    Int :=
  VolSurface.clampIdx s.smiles.length (lowerBound s.expiries expiry)

/-- VolSurface::getVolNormStrike. -/
def VolSurface.getVolNormStrike {α : Type} [LinearOrderedField α] (s : VolSurface α)
    (normStrike expiry : α) : Option α :=
  if s.expiries.isEmpty || s.smiles.isEmpty then some 0.15
  else do
    let back ← s.expiries.getLast?
    if expiry > back then do
      let smile ← s.smiles.getLast?
      smile.getVol normStrike
    else do
      let front ← s.expiries.head?
      if expiry < front then do
        let smile ← s.smiles.head?
        smile.getVol normStrike
      else do
        let idx := s.termIdx expiry
        let expiryUp ← vecAt s.expiries idx
        let expiryDown ← vecAt s.expiries (idx - 1)
        let smileUp ← vecAt s.smiles idx
        let volUp ← smileUp.getVol normStrike
        let smileDown ← vecAt s.smiles (idx - 1)
        let volDown ← smileDown.getVol normStrike
        let weight :=
          if expiryUp ≠ expiryDown then (expiry - expiryDown) / (expiryUp - expiryDown)
          else 0
        pure (volDown + weight * (volUp - volDown))

/-- VolSurface::getAtmVol. -/
def VolSurface.getAtmVol {α : Type} [LinearOrderedField α] (s : VolSurface α) (expiry : α) :
    Option α :=
  s.getVolNormStrike 0 expiry

/-- VolSurface::getNormStrike. -/
noncomputable def VolSurface.getNormStrike (s : VolSurface ℝ) (strike forward expiry : ℝ) :
    Option ℝ := do
  let atmVol ← s.getAtmVol expiry
  pure (Utils.getNormStrike strike forward expiry atmVol)

/-- VolSurface::getStrike. -/
noncomputable def VolSurface.getStrike (s : VolSurface ℝ) (normStrike forward expiry : ℝ) :
    Option ℝ := do
  let atmVol ← s.getAtmVol expiry
  pure (Utils.getStrikeFromNormStrike normStrike forward expiry atmVol)

/-- VolSurface::getVol. -/
noncomputable def VolSurface.getVol (s : VolSurface ℝ) (strike forward expiry : ℝ) :
    Option ℝ := do
  let normStrike ← s.getNormStrike strike forward expiry
  s.getVolNormStrike normStrike expiry

/-- VolSurface::addVolPoint: grow `smiles` to hold index `idx`, then append the point
to the smile at `idx`.  A negative index reads before the vector. -/
def VolSurface.addVolPoint {α : Type} (s : VolSurface α) (idx : Int) (normStrike vol : α) :
    Option (VolSurface α) := do
  let smiles :=
    if idx ≥ (s.smiles.length : Int) then
      s.smiles ++ List.replicate ((idx + 1).toNat - s.smiles.length) ⟨[], []⟩
    else s.smiles
  let smile ← vecAt smiles idx
  pure { s with
    smiles := smiles.set idx.toNat ⟨smile.normStrikes ++ [normStrike], smile.volPoints ++ [vol]⟩ }

/-- The inner loop of `VolSurface::hasButterflyArbitrage` over the vol points of one
smile: is there an `i` with `1 ≤ i`, `i + 1 < size` whose second difference of total
variance is below `-1e-8`. -/
def VolSurface.butterflyInSmile {α : Type} [LinearOrderedField α] (T : α) : List α → Bool
  | down :: mid :: up :: rest =>
    let var_down := down * down * T
    let var_mid := mid * mid * T
    let var_up := up * up * T
    let var_diff := var_up - 2 * var_mid + var_down
    if var_diff < -1e-8 then true
    else VolSurface.butterflyInSmile T (mid :: up :: rest)
  | _ => false

/-- The outer loop of `VolSurface::hasButterflyArbitrage` over the indices still to visit. -/
def VolSurface.butterflyLoop {α : Type} [LinearOrderedField α] (s : VolSurface α) :
    List Nat → Option Bool
  | [] => some false
  | idx :: rest => do
    let smile ← s.smiles[idx]?
    let expiry ← s.expiries[idx]?
    let T := expiry / 365
    if smile.normStrikes.length < 3 then VolSurface.butterflyLoop s rest
    else if VolSurface.butterflyInSmile T smile.volPoints then some true
    else VolSurface.butterflyLoop s rest

/-- VolSurface::hasButterflyArbitrage. -/
def VolSurface.hasButterflyArbitrage {α : Type} [LinearOrderedField α] (s : VolSurface α) :
    Option Bool :=
  VolSurface.butterflyLoop s (List.range s.expiries.length)

/-- The function `std::round`: the nearest integer, halves away from zero. -/
def stdRound {α : Type} [LinearOrderedField α] [FloorRing α] (x : α) : α :=
  if 0 ≤ x then (⌊x + 1 / 2⌋ : Int) else (⌈x - 1 / 2⌉ : Int)

/-- The strikes of the earlier smile that match a strike of the later smile after both
are rounded to two decimals (`commonStrikes` in `VolSurface::hasCalendarArbitrage`). -/
def VolSurface.commonStrikes {α : Type} [LinearOrderedField α] [FloorRing α]
    (smileEarlier smileLater : Smile α) : List α :=
  smileEarlier.normStrikes.filter fun ns =>
    let nsRounded := stdRound (ns * 100) / 100
    smileLater.normStrikes.any fun nsLater =>
      let nsLaterRounded := stdRound (nsLater * 100) / 100
      decide (|nsRounded - nsLaterRounded| < 1e-6)

/-- The loop of `VolSurface::hasCalendarArbitrage` over the common strikes of one pair
of adjacent smiles: `some true` at the first strike where total variance decreases. -/
def VolSurface.calendarInPair {α : Type} [LinearOrderedField α]
    (expiryEarlier expiryLater : α) (smileEarlier smileLater : Smile α) :
    List α → Option Bool
  | [] => some false
  | ns :: rest => do
    let volEarlier ← smileEarlier.getVol ns
    let volLater ← smileLater.getVol ns
    let varEarlier := volEarlier * volEarlier * expiryEarlier / 365
    let varLater := volLater * volLater * expiryLater / 365
    if varLater < varEarlier - 1e-8 then some true
    else VolSurface.calendarInPair expiryEarlier expiryLater smileEarlier smileLater rest

/-- The outer loop of `VolSurface::hasCalendarArbitrage` over the indices `i` with
`i + 1 < expiries.size()` still to visit. -/
def VolSurface.calendarLoop {α : Type} [LinearOrderedField α] [FloorRing α]
    (s : VolSurface α) : List Nat → Option Bool
  | [] => some false
  | i :: rest => do
    let expiryEarlier ← s.expiries[i]?
    let expiryLater ← s.expiries[i + 1]?
    let smileEarlier ← s.smiles[i]?
    let smileLater ← s.smiles[i + 1]?
    let found ← VolSurface.calendarInPair expiryEarlier expiryLater smileEarlier smileLater
      (VolSurface.commonStrikes smileEarlier smileLater)
    if found then some true else VolSurface.calendarLoop s rest

/-- VolSurface::hasCalendarArbitrage. -/
def VolSurface.hasCalendarArbitrage {α : Type} [LinearOrderedField α] [FloorRing α]
    (s : VolSurface α) : Option Bool :=
  VolSurface.calendarLoop s (List.range (s.expiries.length - 1))

/-- The body of the constructor's loop for one index: the term-blended ATM vol of the
expiry at `idx`, its strike grid, and one vol point per grid strike. -/
noncomputable def VolSurface.fillSmile (atmOneMonthVolEst_ skew convexity volMean spot
    interestRate : ℝ) (s : VolSurface ℝ) (idx : Nat) : Option (VolSurface ℝ) := do
  let expiry ← s.expiries[idx]?
  let weight := Real.exp (-|expiry - 30| / 365)
  let atmVol := Real.sqrt (volMean * volMean +
    weight * (atmOneMonthVolEst_ * atmOneMonthVolEst_ - volMean * volMean))
  let normStrikes := Utils.getNormStrikes spot interestRate expiry atmVol 40 50
  normStrikes.foldlM
    (fun acc ns => acc.addVolPoint idx ns (atmVol + skew * ns + convexity * ns * ns)) s

/-- The constructor `VolSurface::VolSurface`: one smile per expiry, then the two
arbitrage diagnostics, whose only effect is a warning on the error stream. -/
noncomputable def VolSurface.construct (expiries_ : List ℝ) (atmOneMonthVolEst_ skew
    convexity volMean spot interestRate : ℝ) : Option (VolSurface ℝ) := do
  let init : VolSurface ℝ :=
    ⟨expiries_, List.replicate expiries_.length ⟨[], []⟩, atmOneMonthVolEst_⟩
  let s ← (List.range expiries_.length).foldlM
    (VolSurface.fillSmile atmOneMonthVolEst_ skew convexity volMean spot interestRate) init
  let _ ← s.hasButterflyArbitrage
  let _ ← s.hasCalendarArbitrage
  pure s

/-- The smile the constructor builds for one expiry: the strike grid at the term-blended
ATM vol of the expiry and the quadratic vol at each grid strike (what `fillSmile`
appends to an empty smile). -/
noncomputable def VolSurface.smileFor (atmOneMonthVolEst_ skew convexity volMean spot
    interestRate expiry : ℝ) : Smile ℝ :=
  let weight := Real.exp (-|expiry - 30| / 365)
  let atmVol := Real.sqrt (volMean * volMean +
    weight * (atmOneMonthVolEst_ * atmOneMonthVolEst_ - volMean * volMean))
  let normStrikes := Utils.getNormStrikes spot interestRate expiry atmVol 40 50
  ⟨normStrikes, normStrikes.map fun ns => atmVol + skew * ns + convexity * ns * ns⟩

/-- The weight of the one-month estimate in the term blend of the constructor
(`weight` in `VolSurface::VolSurface`). -/
noncomputable def VolSurface.termWeight (expiry : ℝ) : ℝ :=
  Real.exp (-|expiry - 30| / 365)

/-- The term-blended ATM vol of the constructor (`atmVol` in `VolSurface::VolSurface`). -/
noncomputable def VolSurface.blendedAtmVol (atmOneMonthVolEst_ volMean expiry : ℝ) : ℝ :=
  let weight := Real.exp (-|expiry - 30| / 365)
  Real.sqrt (volMean * volMean +
    weight * (atmOneMonthVolEst_ * atmOneMonthVolEst_ - volMean * volMean))

/-! ## Market data (`core/models`) -/

/-- The class `Asset`. -/
structure Asset where
  symbol : String
  deriving DecidableEq

/-- The enumeration `Regime`, with its underlying values 0, 1, 2. -/
inductive Regime where
  | CALM
  | STRESS
  | EVENT
  deriving DecidableEq, Repr

/-- The underlying value of a regime (`static_cast<int>(regime)`). -/
def Regime.toFin : Regime → Fin 3
  | .CALM => 0
  | .STRESS => 1
  | .EVENT => 2

/-- The regime of an underlying value (`static_cast<Regime>(i)`). -/
def Regime.ofFin : Fin 3 → Regime
  | 0 => .CALM
  | 1 => .STRESS
  | 2 => .EVENT

/-- The struct `RegimeParams`. -/
structure RegimeParams (α : Type) where
  spotVol : α
  volMean : α
  volKappa : α
  volOfVol : α
  rho : α
  skew : α
  convexity : α

/-- The class `Market`; the shared pointer to the surface is taken to be non-null. -/
structure Market (α : Type) where
  asset : Asset
  time : Int
  spot : α
  volSurface : VolSurface α
  interestRate : α
  regime : Regime

/-- Modelled from the spec: the enumeration `OptionType` of `optiontype.hpp`, which is
not among the sources; the calculator branches on `CALL` against everything else, and
the spec names the two kinds call and put. -/
inductive OptionType where
  | CALL
  | PUT
  deriving DecidableEq, Repr

/-- The class `Option` of `core/models/option.hpp`. -/
structure models.Option (α : Type) where
  asset : Asset
  strike : α
  expiry : α
  optionType : OptionType
  lotSize : Int

/-- The class `Future` of `core/models/future.hpp`; its expiry is text. -/
structure Future where
  asset : Asset
  expiry : String
  lotSize : Int

/-- Modelled from the spec: the base class `Security` of `security.hpp`, which is not
among the sources.  The calculator tells an option from a future by a dynamic cast, and
the spec lets an instrument that is neither contribute nothing; a position is a
security that is an option, a future, or anything else. -/
inductive Security where
  | option (o : models.Option ℝ)
  | future (f : Future)
  | other

/-- The struct `Risk` of `core/models/risk.hpp`. -/
structure Risk where
  delta : ℝ
  gamma : ℝ
  vega : ℝ
  theta : ℝ

/-! ## Configuration (`core/config.hpp`, `core/config.cpp`) -/

/-- Config::TIME_STEP. -/
def Config.TIME_STEP : Int := 1

/-- Config::SPX_SPOT. -/
def Config.SPX_SPOT {α : Type} [LinearOrderedField α] : α := 25000

/-- Config::VIX. -/
def Config.VIX {α : Type} [LinearOrderedField α] : α := 0.22

/-- Config::INTEREST_RATE. -/
def Config.INTEREST_RATE {α : Type} [LinearOrderedField α] : α := 0.05

/-- Config::REGIME_TRANSITION, row = current regime, column = next regime. -/
def Config.REGIME_TRANSITION {α : Type} [LinearOrderedField α] : Fin 3 → Fin 3 → α :=
  ![![0.97, 0.03, 0.00],
    ![0.15, 0.80, 0.05],
    ![0.00, 0.20, 0.80]]

/-- Config::getExpiries. -/
def Config.getExpiries : List Int :=
  (List.range 26).map fun i => 4 + 7 * (i : Int)

/-- The cumulative probability `P[i][0] + ... + P[i][j]` of row `i` of the transition
matrix, in the words of the inverse-CDF claim. -/
def Config.cumulativeTransition {α : Type} [LinearOrderedField α] (i : Fin 3) : Fin 3 → α
  | 0 => Config.REGIME_TRANSITION i 0
  | 1 => Config.REGIME_TRANSITION i 0 + Config.REGIME_TRANSITION i 1
  | 2 => Config.REGIME_TRANSITION i 0 + Config.REGIME_TRANSITION i 1
      + Config.REGIME_TRANSITION i 2

/-! ## Calculator (`core/workers/calculator.cpp`) -/

/-- The function `std::erf` of the C++ standard library: the error function. -/
noncomputable def stdErf (x : ℝ) : ℝ :=
  2 / Real.sqrt Real.pi * ∫ t in (0 : ℝ)..x, Real.exp (-(t ^ 2))

/-- The constant `SQRT_2PI`.  The source spells it `2.50662827463100050241`, the square
root of `2 * pi` to 21 digits; as every `double` constant stands for the real number it
was written for, it is that square root here. -/
noncomputable def Calculator.SQRT_2PI : ℝ := Real.sqrt (2 * Real.pi)

/-- The standard normal CDF `normCdf`. -/
noncomputable def Calculator.normCdf (x : ℝ) : ℝ :=
  0.5 * (1 + stdErf (x / Real.sqrt 2))

/-- The standard normal PDF `normPdf`. -/
noncomputable def Calculator.normPdf (x : ℝ) : ℝ :=
  Real.exp (-0.5 * x * x) / Calculator.SQRT_2PI

/-- The struct `OptionPricerInputs`. -/
structure OptionPricerInputs where
  tte : ℝ
  forward : ℝ
  sigma : ℝ
  d1 : ℝ
  d2 : ℝ
  df : ℝ

/-- Calculator::getOptionPricerInputs. -/
noncomputable def Calculator.getOptionPricerInputs (option : models.Option ℝ)
    (market : Market ℝ) : Option OptionPricerInputs := do
  let tte := option.expiry / 365
  let forward := market.spot * Real.exp (market.interestRate * tte)
  let sigma ← market.volSurface.getVol option.strike forward option.expiry
  let d1 := (Real.log (forward / option.strike) + 0.5 * sigma * sigma * tte)
    / (sigma * Real.sqrt tte)
  let d2 := d1 - sigma * Real.sqrt tte
  let df := Real.exp (-market.interestRate * tte)
  pure ⟨tte, forward, sigma, d1, d2, df⟩

/-- Calculator::priceOption. -/
noncomputable def Calculator.priceOption (option : models.Option ℝ) (market : Market ℝ) :
    Option ℝ := do
  let inputs ← Calculator.getOptionPricerInputs option market
  if option.optionType = OptionType.CALL then
    pure (inputs.df * (inputs.forward * Calculator.normCdf inputs.d1
      - option.strike * Calculator.normCdf inputs.d2))
  else
    pure (inputs.df * (option.strike * Calculator.normCdf (-inputs.d2)
      - inputs.forward * Calculator.normCdf (-inputs.d1)))

/-- Calculator::calculateRisk. -/
noncomputable def Calculator.calculateRisk (option : models.Option ℝ) (market : Market ℝ) :
    Option Risk := do
  let inputs ← Calculator.getOptionPricerInputs option market
  let delta :=
    if option.optionType = OptionType.CALL then inputs.df * Calculator.normCdf inputs.d1
    else -inputs.df * Calculator.normCdf (-inputs.d1)
  let gamma := inputs.df * Calculator.normPdf inputs.d1
    / (inputs.forward * inputs.sigma * Real.sqrt inputs.tte)
  let vega := inputs.df * inputs.forward * Calculator.normPdf inputs.d1 * Real.sqrt inputs.tte
  let thetaTime := -inputs.df * inputs.forward * Calculator.normPdf inputs.d1 * inputs.sigma
    / (2 * Real.sqrt inputs.tte)
  let thetaCarry :=
    if option.optionType = OptionType.CALL then
      -market.interestRate * inputs.df * inputs.forward * Calculator.normCdf inputs.d1
    else
      market.interestRate * inputs.df * inputs.forward * Calculator.normCdf (-inputs.d1)
  let theta := thetaTime + thetaCarry
  pure ⟨delta, gamma, vega, theta⟩

/-- The expression of `d1` in `getOptionPricerInputs`. -/
noncomputable def Calculator.d1 (forward strike sigma tte : ℝ) : ℝ :=
  (Real.log (forward / strike) + 0.5 * sigma * sigma * tte) / (sigma * Real.sqrt tte)

/-- The expression of `d2` in `getOptionPricerInputs`. -/
noncomputable def Calculator.d2 (forward strike sigma tte : ℝ) : ℝ :=
  Calculator.d1 forward strike sigma tte - sigma * Real.sqrt tte

/-- The price `priceOption` computes once the surface has returned the vol `sigma`. -/
noncomputable def Calculator.priceAtVol (optionType : OptionType)
    (spot rate strike expiry sigma : ℝ) : ℝ :=
  let tte := expiry / 365
  let forward := spot * Real.exp (rate * tte)
  let df := Real.exp (-rate * tte)
  if optionType = OptionType.CALL then
    df * (forward * Calculator.normCdf (Calculator.d1 forward strike sigma tte)
      - strike * Calculator.normCdf (Calculator.d2 forward strike sigma tte))
  else
    df * (strike * Calculator.normCdf (-Calculator.d2 forward strike sigma tte)
      - forward * Calculator.normCdf (-Calculator.d1 forward strike sigma tte))

/-- The Greeks `calculateRisk` computes once the surface has returned the vol `sigma`. -/
noncomputable def Calculator.riskAtVol (optionType : OptionType)
    (spot rate strike expiry sigma : ℝ) : Risk :=
  let tte := expiry / 365
  let forward := spot * Real.exp (rate * tte)
  let df := Real.exp (-rate * tte)
  let d1 := Calculator.d1 forward strike sigma tte
  let delta :=
    if optionType = OptionType.CALL then df * Calculator.normCdf d1
    else -df * Calculator.normCdf (-d1)
  let gamma := df * Calculator.normPdf d1 / (forward * sigma * Real.sqrt tte)
  let vega := df * forward * Calculator.normPdf d1 * Real.sqrt tte
  let thetaTime := -df * forward * Calculator.normPdf d1 * sigma / (2 * Real.sqrt tte)
  let thetaCarry :=
    if optionType = OptionType.CALL then -rate * df * forward * Calculator.normCdf d1
    else rate * df * forward * Calculator.normCdf (-d1)
  ⟨delta, gamma, vega, thetaTime + thetaCarry⟩

/-- The body of the loop of `Calculator::calculatePortfolioRisk` for one position, on
the four running totals; `none` as a position is a null pointer. -/
noncomputable def Calculator.addPosition (market : Market ℝ) (total : Risk) :
    Option Security → Option Risk
  | none => some total
  | some (Security.option opt) => do
    let risk ← Calculator.calculateRisk opt market
    pure ⟨total.delta + risk.delta * (opt.lotSize : ℝ),
      total.gamma + risk.gamma * (opt.lotSize : ℝ),
      total.vega + risk.vega * (opt.lotSize : ℝ),
      total.theta + risk.theta * (opt.lotSize : ℝ)⟩
  | some (Security.future fut) =>
    some ⟨total.delta + 1 * (fut.lotSize : ℝ), total.gamma, total.vega, total.theta⟩
  | some Security.other => some total

/-- Calculator::calculatePortfolioRisk. -/
noncomputable def Calculator.calculatePortfolioRisk (positions : List (Option Security))
    (market : Market ℝ) : Option Risk :=
  positions.foldlM (Calculator.addPosition market) ⟨0, 0, 0, 0⟩

/-- What one non-null position adds, in the words of the aggregation claim, given the
risk of each option. -/
noncomputable def Calculator.contribution (riskOf : models.Option ℝ → Option Risk) :
    Security → Option Risk
  | Security.option opt =>
    (riskOf opt).map fun risk =>
      ⟨(opt.lotSize : ℝ) * risk.delta, (opt.lotSize : ℝ) * risk.gamma,
        (opt.lotSize : ℝ) * risk.vega, (opt.lotSize : ℝ) * risk.theta⟩
  | Security.future fut => some ⟨(fut.lotSize : ℝ), 0, 0, 0⟩
  | Security.other => some ⟨0, 0, 0, 0⟩

/-- The componentwise sum of a list of risks. -/
noncomputable def Calculator.sumRisks (risks : List Risk) : Risk :=
  ⟨(risks.map Risk.delta).sum, (risks.map Risk.gamma).sum, (risks.map Risk.vega).sum,
    (risks.map Risk.theta).sum⟩

/-- The contributions of the non-null entries of a list of positions, in order; there
is none when the risk of some option is undefined. -/
noncomputable def Calculator.contributions (riskOf : models.Option ℝ → Option Risk) :
    List (Option Security) → Option (List Risk)
  | [] => some []
  | none :: rest => Calculator.contributions riskOf rest
  | some security :: rest => do
    let first ← Calculator.contribution riskOf security
    let others ← Calculator.contributions riskOf rest
    pure (first :: others)

/-- The aggregate of the claim: the componentwise sum of the contributions of the
non-null entries, the risk of an option being `calculateRisk` on the market. -/
noncomputable def Calculator.portfolioSum (positions : List (Option Security))
    (market : Market ℝ) : Option Risk :=
  (Calculator.contributions (fun opt => Calculator.calculateRisk opt market) positions).map
    Calculator.sumRisks

/-! ### The conversion `std::stod` -/

/-- The exceptions `std::stod` raises. -/
inductive StodError where
  | invalid_argument
  | out_of_range
  deriving DecidableEq, Repr

/-- What `std::stod` returns when it does not raise: a finite value, or a `double` that
is no real number: an infinity, from the spelling `inf` with its sign, or a NaN, from
the spelling `nan`. -/
inductive StodValue where
  | finite (x : ℚ)
  | posInf
  | negInf
  | nan
  deriving DecidableEq

/-- The function `isspace` in the C locale: space and the controls 9 to 13. -/
def stodIsSpace (c : Char) : Bool :=
  c.toNat = 32 || (9 ≤ c.toNat && c.toNat ≤ 13)

/-- The code of a character with the letters A to Z folded to lower case. -/
def stodLower (c : Char) : Nat :=
  if 65 ≤ c.toNat ∧ c.toNat ≤ 90 then c.toNat + 32 else c.toNat

/-- The value of a decimal digit. -/
def stodDigit (c : Char) : Option Nat :=
  if 48 ≤ c.toNat ∧ c.toNat ≤ 57 then some (c.toNat - 48) else none

/-- The value of a hexadecimal digit. -/
def stodHexDigit (c : Char) : Option Nat :=
  match stodDigit c with
  | some d => some d
  | none => if 97 ≤ stodLower c ∧ stodLower c ≤ 102 then some (stodLower c - 87) else none

/-- Read the longest run of digits: the number read so far, how many digits were read,
and the rest of the text. -/
def stodDigits (digit : Char → Option Nat) (base : Nat) :
    List Char → Nat → Nat → Nat × Nat × List Char
  | [], acc, count => (acc, count, [])
  | c :: cs, acc, count =>
    match digit c with
    | some d => stodDigits digit base cs (acc * base + d) (count + 1)
    | none => (acc, count, c :: cs)

/-- Read a mantissa, digits with at most one point among them and at least one digit:
the digits as one number, how many of them follow the point, and the rest. -/
def stodMantissa (digit : Char → Option Nat) (base : Nat) (cs : List Char) :
    Option (Nat × Nat × List Char) :=
  match stodDigits digit base cs 0 0 with
  | (whole, nWhole, []) => if nWhole = 0 then none else some (whole, 0, [])
  | (whole, nWhole, c :: rest) =>
    if c.toNat = 46 then
      match stodDigits digit base rest whole 0 with
      | (all, nFrac, rest2) => if nWhole + nFrac = 0 then none else some (all, nFrac, rest2)
    else if nWhole = 0 then none
    else some (whole, 0, c :: rest)

/-- Read an optional sign: whether it was a minus, and the rest of the text. -/
def stodSign : List Char → Bool × List Char
  | [] => (false, [])
  | s :: r =>
    if s.toNat = 45 then (true, r) else if s.toNat = 43 then (false, r) else (false, s :: r)

/-- Read an optional exponent: the marker letter (code `marker`, either case), an
optional sign and at least one decimal digit; 0 when there is none. -/
def stodExponent (marker : Nat) : List Char → Int
  | [] => 0
  | c :: rest =>
    if stodLower c = marker then
      match stodDigits stodDigit 10 (stodSign rest).2 0 0 with
      | (e, count, _) =>
        if count = 0 then 0 else if (stodSign rest).1 then -(e : Int) else (e : Int)
    else 0

/-- Does the text start with the letters of the given codes, in either case. -/
def stodStartsWith : List Nat → List Char → Bool
  | [], _ => true
  | _ :: _, [] => false
  | k :: ks, c :: cs => stodLower c = k && stodStartsWith ks cs

/-- The magnitude of the number a text starts with, after leading space and sign:
a hexadecimal form `0x…` with a binary exponent `p…`, or a decimal form with a decimal
exponent `e…`; `none` when the text starts with neither. -/
def stodMagnitude (cs : List Char) : Option ℚ :=
  let hex : Option (Nat × Nat × List Char) :=
    match cs with
    | z :: x :: rest =>
      if z.toNat = 48 ∧ stodLower x = 120 then stodMantissa stodHexDigit 16 rest else none
    | _ => none
  match hex with
  | some (num, nFrac, rest) =>
    some ((num : ℚ) * (2 : ℚ) ^ (stodExponent 112 rest - 4 * (nFrac : Int)))
  | none =>
    match stodMantissa stodDigit 10 cs with
    | some (num, nFrac, rest) =>
      some ((num : ℚ) * (10 : ℚ) ^ (stodExponent 101 rest - (nFrac : Int)))
    | none => none

/-- The result of `std::stod` for a number of magnitude `x`, as `strtod` of glibc sets
`ERANGE` when rounding to nearest on x86-64: a range error when `x` rounds to an
infinity (from `2^1024 - 2^970` on), or when `x` rounds below the smallest normal
`double` (it is under `2^-1022 - 2^-1076`) and is not itself a `double`, that is, not a
multiple of `2^-1074`.  Zero and the numbers that are exactly subnormal are returned. -/
def stodFinite (negative : Bool) (x : ℚ) : Except StodError StodValue :=
  if (2 : ℚ) ^ 1024 - (2 : ℚ) ^ 970 ≤ x
      ∨ (x < (2 : ℚ) ^ (-1022 : Int) - (2 : ℚ) ^ (-1076 : Int)
        ∧ (x * (2 : ℚ) ^ 1074).den ≠ 1) then
    Except.error StodError.out_of_range
  else Except.ok (StodValue.finite (if negative then -x else x))

/-- The function `std::stod` of the C++ standard library, on the whole text: skip
leading space, read an optional sign and the longest number the text starts with, the
spellings `inf` and `nan` (in either case) among them.  It raises
`std::invalid_argument` when the text starts with no number and `std::out_of_range` on
a range error. -/
def stdStod (text : String) : Except StodError StodValue :=
  let signed := stodSign (text.toList.dropWhile stodIsSpace)
  if stodStartsWith [105, 110, 102] signed.2 then
    Except.ok (if signed.1 then StodValue.negInf else StodValue.posInf)
  else if stodStartsWith [110, 97, 110] signed.2 then
    Except.ok StodValue.nan
  else
    match stodMagnitude signed.2 with
    | none => Except.error StodError.invalid_argument
    | some x => stodFinite signed.1 x

/-- Calculator::priceFuture.  The text of the expiry is converted twice, first for a
time to expiry that is not used.  The result is `none` when the price is a `double` that
is no real number: at an infinite expiry unless the exponent is `-∞`, and at a NaN
expiry, which every operation of Utils::getForwardPrice hands on. -/
noncomputable def Calculator.priceFuture (future : Future) (market : Market ℝ) :
    Except StodError (Option ℝ) := do
  let _ ← stdStod future.expiry
  let days ← stdStod future.expiry
  match days with
  | StodValue.finite x =>
    pure (some (Utils.getForwardPrice market.spot market.interestRate (x : ℝ)))
  | StodValue.posInf =>
    pure (Utils.getForwardPriceAtInfinity market.spot market.interestRate false)
  | StodValue.negInf =>
    pure (Utils.getForwardPriceAtInfinity market.spot market.interestRate true)
  | StodValue.nan => pure none

/-! ## Simulator (`core/workers/simulator.cpp`) -/

/-- The function `getRegimeParams`, read at one regime. -/
def getRegimeParams {α : Type} [LinearOrderedField α] : Regime → RegimeParams α
  | .CALM => ⟨0.12, 0.18, 4.0, 0.20, -0.3, -0.02, 0.01⟩
  | .STRESS => ⟨0.25, 0.28, 1.5, 0.45, -0.6, -0.05, 0.02⟩
  | .EVENT => ⟨0.40, 0.35, 0.5, 0.80, -0.75, -0.08, 0.03⟩

/-- The sampling loop of `Simulator::getNextRegime` over the column indices still to
visit, with the cumulative probability so far; past the last column it returns
regime 2. -/
def Simulator.sampleRegime {α : Type} [LinearOrderedField α] (probs : Fin 3 → α) (r : α) :
    List (Fin 3) → α → Regime
  | [], _ => Regime.ofFin 2
  | i :: rest, cumProb =>
    let cumProb := cumProb + probs i
    if r < cumProb then Regime.ofFin i else Simulator.sampleRegime probs r rest cumProb

/-- Simulator::getNextRegime, with the uniform draw `r = rand() / RAND_MAX` an argument. -/
def Simulator.getNextRegime {α : Type} [LinearOrderedField α] (regime : Regime) (r : α) :
    Regime :=
  let probs : Fin 3 → α := Config.REGIME_TRANSITION regime.toFin
  Simulator.sampleRegime probs r [0, 1, 2] 0

/-- The first loop of `Simulator::simulateNextMarket`: age every expiry by one time
step and keep the aged expiries that are positive. -/
def Simulator.ageExpiries {α : Type} [LinearOrderedField α] (newExpiries : List α) : List α :=
  (newExpiries.filter fun e => decide (e - (Config.TIME_STEP : α) > 0)).map
    fun e => e - (Config.TIME_STEP : α)

/-- The second loop of `Simulator::simulateNextMarket`, from loop counter `i` with
`count` iterations left: push `filteredExpiries.back() + 7.0 * (i + 1)`. -/
def Simulator.appendExpiries {α : Type} [LinearOrderedField α] :
    Nat → Nat → List α → Option (List α)
  | 0, _, filteredExpiries => some filteredExpiries
  | count + 1, i, filteredExpiries => do
    let back ← filteredExpiries.getLast?
    let newExpiry := back + 7 * ((i : α) + 1)
    Simulator.appendExpiries count (i + 1) (filteredExpiries ++ [newExpiry])

/-- The expiry ladder `Simulator::simulateNextMarket` hands to the surface constructor:
resolve the list, age and filter it, then append as many expiries as were removed. -/
def Simulator.nextExpiries {α : Type} [LinearOrderedField α] (current expiries : List α) :
    Option (List α) :=
  let newExpiries := if expiries.isEmpty then current else expiries
  let filteredExpiries := Simulator.ageExpiries newExpiries
  let numExpiriesRemoved := newExpiries.length - filteredExpiries.length
  Simulator.appendExpiries numExpiriesRemoved 0 filteredExpiries

/-- Simulator::simulateNextMarket, with the uniform draw `r` of the regime sampler and
the two standard normal draws `z1`, `z2` as arguments.  The header gives
`atmOneMonthVol` the default -1.0 and `expiries` the default empty list.  The time
index is an `int`; the sum `currentTime + TIME_STEP` is undefined when it overflows. -/
noncomputable def Simulator.simulateNextMarket (market : Market ℝ) (atmOneMonthVol : ℝ)
    (expiries : List ℝ) (r z1 z2 : ℝ) : Option (Market ℝ) := do
  let currentTime := market.time
  let dt : ℝ := (Config.TIME_STEP : ℝ) / 365
  let filteredExpiries ← Simulator.nextExpiries market.volSurface.expiries expiries
  let nextRegime := Simulator.getNextRegime market.regime r
  let regimeParams : RegimeParams ℝ := getRegimeParams nextRegime
  let zSpot := z1
  let zVol := regimeParams.rho * z1
    + Real.sqrt (1 - regimeParams.rho * regimeParams.rho) * z2
  let spotNext := market.spot * Real.exp
    (-0.5 * regimeParams.spotVol * regimeParams.spotVol * dt
      + regimeParams.spotVol * Real.sqrt dt * zSpot)
  let currentAtmOneMonthVol :=
    if atmOneMonthVol > 0 then atmOneMonthVol else market.volSurface.atmOneMonthVolEst
  let atmOneMonthVolNext := currentAtmOneMonthVol
    + regimeParams.volKappa * (regimeParams.volMean - currentAtmOneMonthVol) * dt
    + regimeParams.volOfVol * Real.sqrt dt * zVol
  let vsNext ← VolSurface.construct filteredExpiries atmOneMonthVolNext regimeParams.skew
    regimeParams.convexity regimeParams.volMean spotNext market.interestRate
  if currentTime + Config.TIME_STEP > INT_MAX then none
  else
    pure ⟨market.asset, currentTime + Config.TIME_STEP, spotNext, vsNext,
      market.interestRate, nextRegime⟩

/-- Simulator::initializeMarket, with the draws of its simulation step as arguments. -/
noncomputable def Simulator.initializeMarket (r z1 z2 : ℝ) : Option (Market ℝ) := do
  let asset : Asset := ⟨".NDX"⟩
  let expiries := Config.getExpiries
  let expiriesDouble : List ℝ :=
    (expiries.map fun (e : Int) => (e : ℝ)).map fun e => e + (Config.TIME_STEP : ℝ)
  let volSurface ← VolSurface.construct expiriesDouble Config.VIX (-0.02) 0.01 0.18
    Config.SPX_SPOT Config.INTEREST_RATE
  let market : Market ℝ :=
    ⟨asset, -Config.TIME_STEP, Config.SPX_SPOT, volSurface, Config.INTEREST_RATE, Regime.CALM⟩
  let expiriesForSimulation := Config.getExpiries
  let expiriesForSimulationDouble : List ℝ :=
    (expiriesForSimulation.map fun (e : Int) => (e : ℝ)).map fun e =>
      e + (Config.TIME_STEP : ℝ)
  Simulator.simulateNextMarket market Config.VIX expiriesForSimulationDouble r z1 z2

/-! ## Convexity of a smile, in the words of the spec -/

/-- In the words of the convexity claim: the points `(x, w)` are strictly convex, the
slope between consecutive points strictly increases. -/
def strictlyConvexPoints {α : Type} [LinearOrderedField α] : List (α × α) → Prop
  | p0 :: p1 :: p2 :: rest =>
    (p1.2 - p0.2) / (p1.1 - p0.1) < (p2.2 - p1.2) / (p2.1 - p1.1) ∧
      strictlyConvexPoints (p1 :: p2 :: rest)
  | _ => True

/-- The points of a smile in total variance: each normalized strike with `vol^2 * T`. -/
def Smile.totalVariancePoints {α : Type} [LinearOrderedField α] (T : α) (s : Smile α) :
    List (α × α) :=
  s.normStrikes.zip (s.volPoints.map fun vol => vol * vol * T)

/-- Consecutive strikes are the same distance apart. -/
def evenlySpaced {α : Type} [LinearOrderedField α] : List α → Prop
  | x0 :: x1 :: x2 :: rest => x1 - x0 = x2 - x1 ∧ evenlySpaced (x1 :: x2 :: rest)
  | _ => True

/-! ## Example data -/

/-- The smile of the spec's example: strikes -1, 0, 1 with vols 0.20, 0.18, 0.22. -/
def exampleSmile (α : Type) [LinearOrderedField α] : Smile α :=
  ⟨[-1, 0, 1], [0.20, 0.18, 0.22]⟩

/-- A second smile on the same strikes, ten vol points higher. -/
def exampleSmileLater (α : Type) [LinearOrderedField α] : Smile α :=
  ⟨[-1, 0, 1], [0.30, 0.28, 0.32]⟩

/-- A surface with expiries 30 and 60 days carrying the two example smiles. -/
def exampleSurface (α : Type) [LinearOrderedField α] : VolSurface α :=
  ⟨[30, 60], [exampleSmile α, exampleSmileLater α], 0.2⟩

/-- A surface with the single expiry 30 days, carrying the example smile. -/
def singleExpirySurface (α : Type) [LinearOrderedField α] : VolSurface α :=
  ⟨[30], [exampleSmile α], 0.2⟩

/-- A market at spot 100 and rate 0 on the example surface. -/
noncomputable def exampleMarket : Market ℝ :=
  ⟨⟨".NDX"⟩, 0, 100, exampleSurface ℝ, 0, Regime.CALM⟩

/-- A surface that is flat at the level `sigma` around normalized strike 0: one expiry of
one day, strikes -1 and 1, both vols `sigma`. -/
def flatSurface (sigma : ℝ) : VolSurface ℝ :=
  ⟨[1], [⟨[-1, 1], [sigma, sigma]⟩], sigma⟩

/-- A market at spot 100 and rate 5% on the empty surface, whose vol is the fallback
0.15 at every strike and expiry. -/
noncomputable def carryMarket : Market ℝ :=
  ⟨⟨".NDX"⟩, 0, 100, ⟨[], [], 0.15⟩, 1 / 20, Regime.CALM⟩

/-- A surface of one expiry, 365 days, whose smile has the unevenly spaced strikes
0, 1, 1.1 and vols 0.10, 0.20, 0.22. -/
def unevenSurface (α : Type) [LinearOrderedField α] : VolSurface α :=
  ⟨[365], [⟨[0, 1, 11 / 10], [1 / 10, 1 / 5, 11 / 50]⟩], 1 / 5⟩

/-- A smile on the strikes of the example smile with the vol 0.05 everywhere. -/
def lowSmile (α : Type) [LinearOrderedField α] : Smile α :=
  ⟨[-1, 0, 1], [0.05, 0.05, 0.05]⟩

/-- A surface with expiries 30 and 60 days whose later smile is far below the earlier
one on the same strikes, so that total variance falls from 30 to 60 days. -/
def fallingSurface (α : Type) [LinearOrderedField α] : VolSurface α :=
  ⟨[30, 60], [exampleSmile α, lowSmile α], 0.2⟩

/-! # Theorems -/

/-! ## Round trip of the strike normalisation -/

/-- C1: for positive strike, forward, expiry and ATM vol, mapping a strike to its
normalized strike and back with the same forward, expiry and ATM vol returns the strike. -/
theorem Utils.getStrikeFromNormStrike_getNormStrike (strike forward expiry atmVol : ℝ)
    (hs : 0 < strike) (hf : 0 < forward) (he : 0 < expiry) (hv : 0 < atmVol) :
    Utils.getStrikeFromNormStrike (Utils.getNormStrike strike forward expiry atmVol)
      forward expiry atmVol = strike := by
  unfold Utils.getStrikeFromNormStrike Utils.getNormStrike
  have hsq : 0 < Real.sqrt (expiry / 365) := Real.sqrt_pos.mpr (by positivity)
  have hden : atmVol * Real.sqrt (expiry / 365) ≠ 0 := (mul_pos hv hsq).ne'
  have hexp : Real.log (strike / forward) / (atmVol * Real.sqrt (expiry / 365)) * atmVol
      * Real.sqrt (expiry / 365) = Real.log (strike / forward) := by
    rw [mul_assoc, div_mul_cancel₀ _ hden]
  rw [hexp, Real.exp_log (div_pos hs hf)]
  field_simp

/-- The round trip at strike 110, forward 100, expiry 365 days and ATM vol 1/5. -/
theorem Utils.getStrikeFromNormStrike_getNormStrike_witness :
    Utils.getStrikeFromNormStrike (Utils.getNormStrike 110 100 365 (1 / 5)) 100 365 (1 / 5)
      = 110 :=
  Utils.getStrikeFromNormStrike_getNormStrike 110 100 365 (1 / 5)
    (by norm_num) (by norm_num) (by norm_num) (by norm_num)

/-! ## Binary search and smile interpolation -/

/-- The loop of `std::lower_bound` keeps its invariant on a sorted list: everything
before the result is below the value, everything from the result on is not. -/
theorem lowerBoundLoop_spec {α : Type} [LinearOrderedField α] (xs : List α) (v : α)
    (hmono : ∀ i j (hi : i < xs.length) (hj : j < xs.length), i ≤ j → xs[i] ≤ xs[j]) :
    ∀ fuel first len, len ≤ fuel → first + len ≤ xs.length →
      (∀ j (h : j < xs.length), j < first → xs[j] < v) →
      (∀ j (h : j < xs.length), first + len ≤ j → v ≤ xs[j]) →
      lowerBoundLoop xs v fuel first len ≤ xs.length ∧
      (∀ j (h : j < xs.length), j < lowerBoundLoop xs v fuel first len → xs[j] < v) ∧
      (∀ j (h : j < xs.length), lowerBoundLoop xs v fuel first len ≤ j → v ≤ xs[j]) := by
  intro fuel
  induction fuel with
  | zero =>
    intro first len hlen hb hlo hhi
    have h0 : len = 0 := by omega
    subst h0
    simp only [lowerBoundLoop]
    exact ⟨by omega, hlo, fun j h hj => hhi j h (by omega)⟩
  | succ n ih =>
    intro first len hlen hb hlo hhi
    by_cases h0 : len = 0
    · subst h0
      simp only [lowerBoundLoop, if_true]
      exact ⟨by omega, hlo, fun j h hj => hhi j h (by omega)⟩
    · have hmid : first + len / 2 < xs.length := by omega
      by_cases hlt : xs[first + len / 2] < v
      · have hstep : lowerBoundLoop xs v (n + 1) first len
            = lowerBoundLoop xs v n (first + len / 2 + 1) (len - len / 2 - 1) := by
          simp [lowerBoundLoop, h0, List.getElem?_eq_getElem hmid, hlt]
        rw [hstep]
        apply ih
        · omega
        · omega
        · intro j h hj
          exact lt_of_le_of_lt (hmono j _ h hmid (by omega)) hlt
        · intro j h hj
          exact hhi j h (by omega)
      · have hstep : lowerBoundLoop xs v (n + 1) first len
            = lowerBoundLoop xs v n first (len / 2) := by
          simp [lowerBoundLoop, h0, List.getElem?_eq_getElem hmid, hlt]
        rw [hstep]
        apply ih
        · omega
        · omega
        · exact hlo
        · intro j h hj
          exact le_trans (not_lt.mp hlt) (hmono _ j hmid h (by omega))

theorem pairwise_le_getElem {α : Type} [LinearOrderedField α] {xs : List α}
    (hs : xs.Pairwise (· ≤ ·)) (i j : Nat) (hi : i < xs.length) (hj : j < xs.length)
    (hij : i ≤ j) : xs[i] ≤ xs[j] := by
  rcases Nat.eq_or_lt_of_le hij with h | h
  · subst h; exact le_refl _
  · exact (List.pairwise_iff_getElem.mp hs) i j hi hj h

theorem lowerBound_eq {α : Type} [LinearOrderedField α] (xs : List α) (v : α)
    (hs : xs.Pairwise (· ≤ ·)) (k : Nat) (hk : k ≤ xs.length)
    (hlt : ∀ j (h : j < xs.length), j < k → xs[j] < v)
    (hge : ∀ j (h : j < xs.length), k ≤ j → v ≤ xs[j]) :
    lowerBound xs v = k := by
  obtain ⟨hr, h1, h2⟩ := lowerBoundLoop_spec xs v (pairwise_le_getElem hs) xs.length 0
    xs.length (le_refl _) (by omega) (fun j _ hj => absurd hj (Nat.not_lt_zero j))
    (fun j h hj => absurd h (by omega))
  unfold lowerBound
  rcases Nat.lt_trichotomy (lowerBoundLoop xs v xs.length 0 xs.length) k with h | h | h
  · have hlen : lowerBoundLoop xs v xs.length 0 xs.length < xs.length := by omega
    exact absurd (hlt _ hlen h) (not_lt.mpr (h2 _ hlen (le_refl _)))
  · exact h
  · have hlen : k < xs.length := by omega
    exact absurd (h1 _ hlen h) (not_lt.mpr (hge _ hlen (le_refl _)))


theorem vecAt_natCast {β : Type} (v : List β) (i : Nat) : vecAt v (i : Int) = v[i]? := by
  simp [vecAt]

theorem vecAt_natCast_succ_sub_one {β : Type} (v : List β) (i : Nat) :
    vecAt v (((i + 1 : Nat) : Int) - 1) = v[i]? := by
  have h : (((i + 1 : Nat) : Int) - 1) = (i : Int) := by push_cast; ring
  rw [h, vecAt_natCast]

theorem sorted_head_le_getLast {α : Type} [LinearOrderedField α] {xs : List α}
    (hs : xs.Sorted (· ≤ ·)) (hne : xs ≠ []) : xs.head hne ≤ xs.getLast hne := by
  cases xs with
  | nil => exact absurd rfl hne
  | cons a t =>
    simp only [List.head_cons]
    rcases List.mem_cons.mp (List.getLast_mem hne) with h | h
    · rw [h]
    · exact List.rel_of_sorted_cons hs _ h

/-- C3: a smile with at least one strike and one vol, strikes ascending, returns its
last vol for a query above the last strike and its first vol for a query below the
first strike. -/
theorem Smile.getVol_flat_extrapolation {α : Type} [LinearOrderedField α] (s : Smile α)
    (normStrike : α) (hn : s.normStrikes ≠ []) (hv : s.volPoints ≠ [])
    (hsorted : s.normStrikes.Sorted (· ≤ ·)) :
    (s.normStrikes.getLast hn < normStrike →
        s.getVol normStrike = some (s.volPoints.getLast hv)) ∧
      (normStrike < s.normStrikes.head hn →
        s.getVol normStrike = some (s.volPoints.head hv)) := by
  constructor
  · intro h
    simp [Smile.getVol, List.getLast?_eq_getLast _ hn, List.getLast?_eq_getLast _ hv, h]
  · intro h
    have hle := sorted_head_le_getLast hsorted hn
    have h1 : ¬ s.normStrikes.getLast hn < normStrike := not_lt.mpr (le_of_lt (lt_of_lt_of_le h hle))
    simp [Smile.getVol, List.getLast?_eq_getLast _ hn, List.head?_eq_head hn,
      List.head?_eq_head hv, h, h1]

theorem sorted_lt_getElem {α : Type} [LinearOrderedField α] {xs : List α}
    (hs : xs.Sorted (· < ·)) (i j : Nat) (hi : i < xs.length) (hj : j < xs.length)
    (hij : i < j) : xs[i] < xs[j] :=
  (List.pairwise_iff_getElem.mp hs) i j hi hj hij

theorem sorted_lt_le {α : Type} [LinearOrderedField α] {xs : List α}
    (hs : xs.Sorted (· < ·)) : xs.Sorted (· ≤ ·) :=
  List.Pairwise.imp (fun h => le_of_lt h) hs

/-- In a strictly increasing list, a value in `(xs[i], xs[i+1]]` has lower bound `i + 1`. -/
theorem lowerBound_of_bracket {α : Type} [LinearOrderedField α] (xs : List α) (v : α)
    (hs : xs.Sorted (· < ·)) (i : Nat) (hi : i + 1 < xs.length)
    (hlo : xs[i] < v) (hhi : v ≤ xs[i + 1]) : lowerBound xs v = i + 1 := by
  refine lowerBound_eq xs v (sorted_lt_le hs) (i + 1) (by omega) ?_ ?_
  · intro j h hj
    exact lt_of_le_of_lt (pairwise_le_getElem (sorted_lt_le hs) j i h (by omega) (by omega)) hlo
  · intro j h hj
    exact le_trans hhi (pairwise_le_getElem (sorted_lt_le hs) (i + 1) j hi h hj)

/-- In a sorted list, a value at or below the first element has lower bound 0. -/
theorem lowerBound_of_le_head {α : Type} [LinearOrderedField α] (xs : List α) (v : α)
    (hs : xs.Sorted (· ≤ ·)) (h0 : ∀ h : 0 < xs.length, v ≤ xs[0]) : lowerBound xs v = 0 := by
  refine lowerBound_eq xs v hs 0 (by omega) ?_ ?_
  · intro j h hj
    exact absurd hj (Nat.not_lt_zero j)
  · intro j h hj
    exact le_trans (h0 (by omega)) (pairwise_le_getElem hs 0 j (by omega) h hj)

theorem getLast_eq_getElem_pred {β : Type} (xs : List β) (hne : xs ≠ [])
    (h : xs.length - 1 < xs.length) : xs.getLast hne = xs[xs.length - 1] := by
  rw [List.getLast_eq_getElem]

theorem head_eq_getElem_zero {β : Type} (xs : List β) (hne : xs ≠ [])
    (h : 0 < xs.length) : xs.head hne = xs[0] := by
  cases xs with
  | nil => exact absurd rfl hne
  | cons a t => rfl

/-- C4: in a smile with strictly increasing strikes and as many vols, for a query in
`(n_i, n_(i+1)]` the search returns `i + 1`, which is the smallest index whose strike is
not below the query, and the lookup returns the linear interpolation
`v_i + (ns - n_i) / (n_(i+1) - n_i) * (v_(i+1) - v_i)`. -/
theorem Smile.getVol_linear_interpolation {α : Type} [LinearOrderedField α] (s : Smile α)
    (normStrike : α) (i : Nat) (hsorted : s.normStrikes.Sorted (· < ·))
    (hlen : s.volPoints.length = s.normStrikes.length) (hi : i + 1 < s.normStrikes.length)
    (hlo : s.normStrikes[i] < normStrike) (hhi : normStrike ≤ s.normStrikes[i + 1]) :
    lowerBound s.normStrikes normStrike = i + 1 ∧
      (∀ j (hj : j < s.normStrikes.length), normStrike ≤ s.normStrikes[j] ↔ i + 1 ≤ j) ∧
      s.getVol normStrike = some (s.volPoints[i] +
        (normStrike - s.normStrikes[i]) / (s.normStrikes[i + 1] - s.normStrikes[i])
          * (s.volPoints[i + 1] - s.volPoints[i])) := by
  have hlb := lowerBound_of_bracket s.normStrikes normStrike hsorted i hi hlo hhi
  have hle := sorted_lt_le hsorted
  have hmin : ∀ j (hj : j < s.normStrikes.length),
      normStrike ≤ s.normStrikes[j] ↔ i + 1 ≤ j := by
    intro j hj
    constructor
    · intro h
      by_contra hlt
      exact absurd (lt_of_le_of_lt (pairwise_le_getElem hle j i hj (by omega) (by omega)) hlo)
        (not_lt.mpr h)
    · intro h
      exact le_trans hhi (pairwise_le_getElem hle (i + 1) j hi hj h)
  refine ⟨hlb, hmin, ?_⟩
  have hne : s.normStrikes ≠ [] := List.ne_nil_of_length_pos (by omega)
  have hback : ¬ s.normStrikes.getLast hne < normStrike := by
    rw [getLast_eq_getElem_pred _ hne (by omega)]
    exact not_lt.mpr (le_trans hhi (pairwise_le_getElem hle _ _ hi (by omega) (by omega)))
  have hfront : ¬ normStrike < s.normStrikes.head hne := by
    rw [head_eq_getElem_zero _ hne (by omega)]
    exact not_lt.mpr (le_of_lt (lt_of_le_of_lt
      (pairwise_le_getElem hle 0 i (by omega) (by omega) (by omega)) hlo))
  have hneq : s.normStrikes[i + 1] ≠ s.normStrikes[i] :=
    (sorted_lt_getElem hsorted i (i + 1) (by omega) hi (by omega)).ne'
  have hvi : i + 1 < s.volPoints.length := by omega
  simp only [Smile.getVol, List.getLast?_eq_getLast _ hne, List.head?_eq_head hne, hlb,
    vecAt_natCast, vecAt_natCast_succ_sub_one, List.getElem?_eq_getElem hi,
    List.getElem?_eq_getElem hvi, List.getElem?_eq_getElem (show i < s.normStrikes.length by omega),
    List.getElem?_eq_getElem (show i < s.volPoints.length by omega)]
  simp [hback, hfront, hneq]

/-! ## Term interpolation -/

/-- With at least two smiles the clamped index lies in `[1, size - 1]`. -/
theorem VolSurface.clampIdx_bounds (size : Nat) (idx : Int) (h : 2 ≤ size) :
    1 ≤ VolSurface.clampIdx size idx ∧ VolSurface.clampIdx size idx ≤ (size : Int) - 1 := by
  unfold VolSurface.clampIdx
  simp only
  split_ifs <;> omega

theorem exampleSmile_sorted {α : Type} [LinearOrderedField α] :
    (exampleSmile α).normStrikes.Sorted (· < ·) := by
  simp [exampleSmile, List.Sorted]

theorem exampleSmile_getVol_zero {α : Type} [LinearOrderedField α] :
    (exampleSmile α).getVol 0 = some 0.18 := by
  have hlb : lowerBound ([-1, 0, 1] : List α) 0 = 1 := by
    simp [lowerBound, lowerBoundLoop]
  simp [Smile.getVol, exampleSmile, hlb, vecAt]
  norm_num

theorem exampleSmileLater_getVol_zero {α : Type} [LinearOrderedField α] :
    (exampleSmileLater α).getVol 0 = some 0.28 := by
  have hlb : lowerBound ([-1, 0, 1] : List α) 0 = 1 := by
    simp [lowerBound, lowerBoundLoop]
  simp [Smile.getVol, exampleSmileLater, hlb, vecAt]
  norm_num

/-- On the spec's smile a query of 5 returns the last vol 0.22 and a query of -5 the
first vol 0.20. -/
theorem Smile.getVol_flat_extrapolation_witness :
    (exampleSmile ℚ).getVol 5 = some 0.22 ∧ (exampleSmile ℚ).getVol (-5) = some 0.20 :=
  ⟨(Smile.getVol_flat_extrapolation (exampleSmile ℚ) 5 (by simp [exampleSmile])
      (by simp [exampleSmile]) (sorted_lt_le exampleSmile_sorted)).1
      (by norm_num [exampleSmile]),
    (Smile.getVol_flat_extrapolation (exampleSmile ℚ) (-5) (by simp [exampleSmile])
      (by simp [exampleSmile]) (sorted_lt_le exampleSmile_sorted)).2
      (by norm_num [exampleSmile])⟩

/-- On the spec's smile a query of 1/2 has lower bound 2 and interpolates to 0.20. -/
theorem Smile.getVol_linear_interpolation_witness :
    lowerBound (exampleSmile ℚ).normStrikes (1 / 2) = 2 ∧
      (exampleSmile ℚ).getVol (1 / 2) = some 0.20 := by
  have h := Smile.getVol_linear_interpolation (exampleSmile ℚ) (1 / 2) 1 exampleSmile_sorted
    rfl (by simp [exampleSmile]) (by norm_num [exampleSmile]) (by norm_num [exampleSmile])
  refine ⟨h.1, ?_⟩
  rw [h.2.2]
  norm_num [exampleSmile]

/-- On a surface with one expiry and one smile, a query at that expiry takes the
interpolating branch with clamped index 1 and reads `expiries[1]`, past the end. -/
theorem VolSurface.getVolNormStrike_single_expiry {α : Type} [LinearOrderedField α]
    (e est normStrike : α) (smile : Smile α) :
    (⟨[e], [smile], est⟩ : VolSurface α).termIdx e = 1 ∧
      (⟨[e], [smile], est⟩ : VolSurface α).getVolNormStrike normStrike e = none := by
  have hidx : (⟨[e], [smile], est⟩ : VolSurface α).termIdx e = 1 := by
    simp [VolSurface.termIdx, VolSurface.clampIdx, lowerBound, lowerBoundLoop]
  refine ⟨hidx, ?_⟩
  simp [VolSurface.getVolNormStrike, hidx]
  simp [vecAt]

/-- With equal lengths of at least two, the clamped index and its predecessor are
valid positions of both `expiries` and `smiles`, whatever the order of the expiries. -/
theorem VolSurface.termIdx_bounds {α : Type} [LinearOrderedField α] (s : VolSurface α)
    (expiry : α) (hlen : s.expiries.length = s.smiles.length) (h2 : 2 ≤ s.smiles.length) :
    1 ≤ s.termIdx expiry ∧ s.termIdx expiry ≤ (s.smiles.length : Int) - 1 ∧
      (vecAt s.expiries (s.termIdx expiry)).isSome ∧
      (vecAt s.expiries (s.termIdx expiry - 1)).isSome ∧
      (vecAt s.smiles (s.termIdx expiry)).isSome ∧
      (vecAt s.smiles (s.termIdx expiry - 1)).isSome := by
  obtain ⟨h1, h3⟩ := VolSurface.clampIdx_bounds s.smiles.length
    (lowerBound s.expiries expiry) h2
  have key : ∀ {β : Type} (v : List β) (i : Int), 0 ≤ i → i < v.length →
      (vecAt v i).isSome := by
    intro β v i h0 hlt
    unfold vecAt
    rw [if_neg (not_lt.mpr h0)]
    have : i.toNat < v.length := by omega
    simp [List.getElem?_eq_getElem this]
  unfold VolSurface.termIdx
  exact ⟨h1, h3, key _ _ (by omega) (by omega), key _ _ (by omega) (by omega),
    key _ _ (by omega) (by omega), key _ _ (by omega) (by omega)⟩

/-- C6: on the surface with the single expiry 30 and one smile (equal non-zero lengths),
the query expiry 30 lies between the first and the last expiry, yet the clamped index
is 1, above `smiles.length - 1 = 0`; `expiries[1]` and `smiles[1]` do not exist and the
lookup has no defined result. -/
theorem VolSurface.termIdx_single_expiry_out_of_bounds :
    (singleExpirySurface ℚ).expiries.length = (singleExpirySurface ℚ).smiles.length ∧
      (singleExpirySurface ℚ).expiries.head? = some 30 ∧
      (singleExpirySurface ℚ).expiries.getLast? = some 30 ∧
      (singleExpirySurface ℚ).termIdx 30 = 1 ∧
      ¬ ((singleExpirySurface ℚ).termIdx 30 ≤ ((singleExpirySurface ℚ).smiles.length : Int) - 1) ∧
      vecAt (singleExpirySurface ℚ).expiries ((singleExpirySurface ℚ).termIdx 30) = none ∧
      vecAt (singleExpirySurface ℚ).smiles ((singleExpirySurface ℚ).termIdx 30) = none ∧
      (singleExpirySurface ℚ).getVolNormStrike (1 / 2) 30 = none := by
  obtain ⟨hidx, hnone⟩ :=
    VolSurface.getVolNormStrike_single_expiry (30 : ℚ) 0.2 (1 / 2) (exampleSmile ℚ)
  have hidx2 : (singleExpirySurface ℚ).termIdx 30 = 1 := hidx
  refine ⟨rfl, rfl, rfl, hidx2, ?_, ?_, ?_, hnone⟩
  · rw [hidx2]
    simp [singleExpirySurface]
  · rw [hidx2]
    rfl
  · rw [hidx2]
    rfl

/-! ## Fallback on an empty surface -/

/-- C7: a surface with no expiries, or with no smiles, returns exactly 0.15 for every
normalized strike and every expiry. -/
theorem VolSurface.getVolNormStrike_fallback {α : Type} [LinearOrderedField α]
    (s : VolSurface α) (normStrike expiry : α) (h : s.expiries = [] ∨ s.smiles = []) :
    s.getVolNormStrike normStrike expiry = some 0.15 := by
  rcases h with h | h <;> simp [VolSurface.getVolNormStrike, h]

/-- The empty surface queried at normalized strike 3 and expiry 45 returns 0.15. -/
theorem VolSurface.getVolNormStrike_fallback_witness :
    (⟨[], [], 1 / 5⟩ : VolSurface ℚ).getVolNormStrike 3 45 = some 0.15 :=
  VolSurface.getVolNormStrike_fallback _ 3 45 (Or.inl rfl)

/-! ## At-the-money queries -/

/-- A strike equal to a positive forward has normalized strike 0 on any surface whose
ATM vol at the expiry is defined. -/
theorem VolSurface.getNormStrike_forward (s : VolSurface ℝ) (forward expiry atmVol : ℝ)
    (hf : 0 < forward) (ha : s.getAtmVol expiry = some atmVol) :
    s.getNormStrike forward forward expiry = some 0 := by
  unfold VolSurface.getNormStrike Utils.getNormStrike
  simp [ha, div_self hf.ne']

/-- The vol at a strike equal to a positive forward is the ATM vol. -/
theorem VolSurface.getVol_forward (s : VolSurface ℝ) (forward expiry atmVol : ℝ)
    (hf : 0 < forward) (ha : s.getAtmVol expiry = some atmVol) :
    s.getVol forward forward expiry = some atmVol := by
  unfold VolSurface.getVol
  simp only [VolSurface.getNormStrike_forward s forward expiry atmVol hf ha]
  exact ha

theorem exampleSurface_getAtmVol {α : Type} [LinearOrderedField α] :
    (exampleSurface α).getAtmVol 45 = some 0.23 := by
  have hlb : lowerBound ([30, 60] : List α) 45 = 1 := by
    simp [lowerBound, lowerBoundLoop]
    norm_num
  have hidx : (exampleSurface α).termIdx 45 = 1 := by
    simp [VolSurface.termIdx, exampleSurface, hlb, VolSurface.clampIdx]
  simp [VolSurface.getAtmVol, VolSurface.getVolNormStrike, hidx]
  simp [exampleSurface, vecAt, exampleSmile_getVol_zero, exampleSmileLater_getVol_zero]
  norm_num

/-- C8: for a positive forward and a positive expiry at which the surface's ATM vol is
defined and positive, the normalisation divides by a positive number, the strike query
at strike = forward normalises to 0 and returns the ATM vol, which is the term
interpolation at normalized strike 0. -/
theorem VolSurface.getVol_at_the_money (s : VolSurface ℝ) (forward expiry atmVol : ℝ)
    (hf : 0 < forward) (he : 0 < expiry) (ha : s.getAtmVol expiry = some atmVol)
    (hpos : 0 < atmVol) :
    0 < atmVol * Real.sqrt (expiry / 365) ∧
      s.getNormStrike forward forward expiry = some 0 ∧
      s.getVol forward forward expiry = some atmVol ∧
      s.getVol forward forward expiry = s.getAtmVol expiry ∧
      s.getAtmVol expiry = s.getVolNormStrike 0 expiry := by
  have hv := VolSurface.getVol_forward s forward expiry atmVol hf ha
  exact ⟨mul_pos hpos (Real.sqrt_pos.mpr (by positivity)),
    VolSurface.getNormStrike_forward s forward expiry atmVol hf ha, hv, by rw [hv, ha], rfl⟩

/-- On the example surface at expiry 45 the ATM vol is 0.23 and the query at strike =
forward = 100 returns it. -/
theorem VolSurface.getVol_at_the_money_witness :
    0 < (0.23 : ℝ) * Real.sqrt (45 / 365) ∧
      (exampleSurface ℝ).getNormStrike 100 100 45 = some 0 ∧
      (exampleSurface ℝ).getVol 100 100 45 = some 0.23 ∧
      (exampleSurface ℝ).getVol 100 100 45 = (exampleSurface ℝ).getAtmVol 45 ∧
      (exampleSurface ℝ).getAtmVol 45 = (exampleSurface ℝ).getVolNormStrike 0 45 :=
  VolSurface.getVol_at_the_money (exampleSurface ℝ) 100 45 0.23 (by norm_num) (by norm_num)
    exampleSurface_getAtmVol (by norm_num)

/-! ## Put-call parity -/

theorem VolSurface.addVolPoint_expiries {α : Type} (s t : VolSurface α) (idx : Int)
    (normStrike vol : α) (h : s.addVolPoint idx normStrike vol = some t) :
    t.expiries = s.expiries := by
  unfold VolSurface.addVolPoint at h
  simp only [Option.bind_eq_bind, Option.pure_def] at h
  obtain ⟨smile, _, hs⟩ := Option.bind_eq_some.mp h
  rw [← Option.some.inj hs]

theorem foldlM_option_invariant {σ β γ : Type} (f : σ → β → Option σ) (g : σ → γ)
    (hf : ∀ a b a2, f a b = some a2 → g a2 = g a) :
    ∀ (l : List β) (a a2 : σ), l.foldlM f a = some a2 → g a2 = g a := by
  intro l
  induction l with
  | nil =>
    intro a a2 h
    simp only [List.foldlM_nil, Option.pure_def] at h
    rw [← Option.some.inj h]
  | cons b t ih =>
    intro a a2 h
    simp only [List.foldlM_cons, Option.bind_eq_bind] at h
    obtain ⟨a1, h1, h2⟩ := Option.bind_eq_some.mp h
    rw [ih a1 a2 h2, hf a b a1 h1]

theorem VolSurface.fillSmile_expiries (est skew convexity volMean spot rate : ℝ)
    (s t : VolSurface ℝ) (idx : Nat)
    (h : VolSurface.fillSmile est skew convexity volMean spot rate s idx = some t) :
    t.expiries = s.expiries := by
  unfold VolSurface.fillSmile at h
  simp only [Option.bind_eq_bind] at h
  obtain ⟨expiry, _, h2⟩ := Option.bind_eq_some.mp h
  exact foldlM_option_invariant _ (fun u : VolSurface ℝ => u.expiries)
    (fun a b a2 hab => VolSurface.addVolPoint_expiries a a2 _ _ _ hab) _ s t h2

/-- The constructor keeps the expiry list it is given. -/
theorem VolSurface.construct_expiries (expiries_ : List ℝ)
    (est skew convexity volMean spot rate : ℝ) (s : VolSurface ℝ)
    (h : VolSurface.construct expiries_ est skew convexity volMean spot rate = some s) :
    s.expiries = expiries_ := by
  unfold VolSurface.construct at h
  simp only [Option.bind_eq_bind, Option.pure_def] at h
  obtain ⟨t, ht, h2⟩ := Option.bind_eq_some.mp h
  obtain ⟨_, _, h3⟩ := Option.bind_eq_some.mp h2
  obtain ⟨_, _, h4⟩ := Option.bind_eq_some.mp h3
  rw [← Option.some.inj h4]
  exact foldlM_option_invariant _ (fun u : VolSurface ℝ => u.expiries)
    (fun a b a2 hab => VolSurface.fillSmile_expiries _ _ _ _ _ _ a a2 b hab) _ _ t ht

/-- The surface of the market a simulation step returns carries the ladder computed
by `Simulator.nextExpiries`. -/
theorem Simulator.simulateNextMarket_expiries (market next : Market ℝ)
    (atmOneMonthVol : ℝ) (expiries : List ℝ) (r z1 z2 : ℝ)
    (h : Simulator.simulateNextMarket market atmOneMonthVol expiries r z1 z2 = some next) :
    Simulator.nextExpiries market.volSurface.expiries expiries
      = some next.volSurface.expiries := by
  unfold Simulator.simulateNextMarket at h
  simp only [Option.bind_eq_bind, Option.pure_def] at h
  obtain ⟨filtered, hf, h2⟩ := Option.bind_eq_some.mp h
  obtain ⟨vs, hvs, h3⟩ := Option.bind_eq_some.mp h2
  split_ifs at h3
  rw [hf, ← Option.some.inj h3]
  exact congrArg some (VolSurface.construct_expiries _ _ _ _ _ _ _ vs hvs).symm

/-- On a non-empty list the append loop succeeds and adds `count` expiries. -/
theorem Simulator.appendExpiries_length {α : Type} [LinearOrderedField α] :
    ∀ (count i : Nat) (xs : List α), xs ≠ [] →
      ∃ ys, Simulator.appendExpiries count i xs = some ys ∧ ys.length = xs.length + count := by
  intro count
  induction count with
  | zero =>
    intro i xs _
    exact ⟨xs, rfl, rfl⟩
  | succ n ih =>
    intro i xs hne
    obtain ⟨ys, hys, hlen⟩ := ih (i + 1)
      (xs ++ [xs.getLast hne + 7 * ((i : α) + 1)]) (by simp)
    refine ⟨ys, ?_, ?_⟩
    · simp only [Simulator.appendExpiries, List.getLast?_eq_getLast _ hne]
      exact hys
    · rw [hlen, List.length_append, List.length_singleton]
      omega

theorem Simulator.ageExpiries_length_le {α : Type} [LinearOrderedField α] (xs : List α) :
    (Simulator.ageExpiries xs).length ≤ xs.length := by
  unfold Simulator.ageExpiries
  rw [List.length_map]
  exact List.length_filter_le _ _

/-- When at least one aged expiry survives the ladder keeps its length. -/
theorem Simulator.nextExpiries_length {α : Type} [LinearOrderedField α]
    (current expiries : List α)
    (hsurv : Simulator.ageExpiries (if expiries.isEmpty then current else expiries) ≠ []) :
    ∃ ys, Simulator.nextExpiries current expiries = some ys ∧
      ys.length = (if expiries.isEmpty then current else expiries).length := by
  obtain ⟨ys, hys, hlen⟩ := Simulator.appendExpiries_length
    ((if expiries.isEmpty then current else expiries).length
      - (Simulator.ageExpiries (if expiries.isEmpty then current else expiries)).length) 0
    (Simulator.ageExpiries (if expiries.isEmpty then current else expiries)) hsurv
  refine ⟨ys, hys, ?_⟩
  have := Simulator.ageExpiries_length_le (if expiries.isEmpty then current else expiries)
  omega

/-- When the resolved list is non-empty and no aged expiry survives, the append loop
reads `back()` of an empty vector. -/
theorem Simulator.nextExpiries_all_dropped {α : Type} [LinearOrderedField α]
    (current expiries : List α)
    (hne : (if expiries.isEmpty then current else expiries) ≠ [])
    (hdrop : Simulator.ageExpiries (if expiries.isEmpty then current else expiries) = []) :
    Simulator.nextExpiries current expiries = none := by
  unfold Simulator.nextExpiries
  simp only [hdrop, List.length_nil, Nat.sub_zero]
  obtain ⟨n, hn⟩ := Nat.exists_eq_succ_of_ne_zero
    (fun h => hne (List.length_eq_zero.mp h))
  rw [hn]
  rfl

/-- Whenever a simulation step returns a market, its surface has as many expiries as the
resolved input list. -/
theorem Simulator.simulateNextMarket_expiries_length (market next : Market ℝ)
    (atmOneMonthVol : ℝ) (expiries : List ℝ) (r z1 z2 : ℝ)
    (h : Simulator.simulateNextMarket market atmOneMonthVol expiries r z1 z2 = some next) :
    next.volSurface.expiries.length
      = (if expiries.isEmpty then market.volSurface.expiries else expiries).length := by
  have hnext := Simulator.simulateNextMarket_expiries market next atmOneMonthVol expiries
    r z1 z2 h
  by_cases hsurv : Simulator.ageExpiries
      (if expiries.isEmpty then market.volSurface.expiries else expiries) = []
  · by_cases hne : (if expiries.isEmpty then market.volSurface.expiries else expiries) = []
    · have hnil : Simulator.nextExpiries market.volSurface.expiries expiries = some [] := by
        unfold Simulator.nextExpiries
        simp only [hsurv, hne, List.length_nil, Nat.sub_zero]
        rfl
      rw [hnil] at hnext
      rw [← Option.some.inj hnext, hne]
    · rw [Simulator.nextExpiries_all_dropped _ _ hne hsurv] at hnext
      exact absurd hnext (by simp)
  · obtain ⟨ys, hys, hlen⟩ := Simulator.nextExpiries_length market.volSurface.expiries
      expiries hsurv
    rw [hys] at hnext
    rw [← Option.some.inj hnext, hlen]

/-- C9: with the override list `[1]` the only expiry ages to 0 and is dropped, the loop
that should append one expiry reads `filteredExpiries.back()` on an empty vector, and
the step has no defined result, for every market and every draw; the claim asks for a
surface with one expiry. -/
theorem Simulator.simulateNextMarket_all_dropped (market : Market ℝ) (atmOneMonthVol r z1 z2 : ℝ) :
    Simulator.simulateNextMarket market atmOneMonthVol [1] r z1 z2 = none := by
  have h : Simulator.nextExpiries market.volSurface.expiries ([1] : List ℝ) = none := by
    apply Simulator.nextExpiries_all_dropped
    · simp
    · simp [Simulator.ageExpiries, Config.TIME_STEP]
  unfold Simulator.simulateNextMarket
  simp [h]

/-- With one expiry dropped the appended expiry is 7 days after the last survivor. -/
theorem Simulator.appendExpiries_one {α : Type} [LinearOrderedField α] (xs : List α) (L : α) :
    Simulator.appendExpiries 1 0 (xs ++ [L]) = some (xs ++ [L, L + 7]) := by
  simp [Simulator.appendExpiries]

/-- With two expiries dropped the second appended expiry is 14 days after the first:
the loop adds `7 * (i + 1)` to a `back()` that already moved. -/
theorem Simulator.appendExpiries_two {α : Type} [LinearOrderedField α] (xs : List α) (L : α) :
    Simulator.appendExpiries 2 0 (xs ++ [L]) = some (xs ++ [L, L + 7, L + 7 + 14]) := by
  simp [Simulator.appendExpiries]
  norm_num

/-- C10: with the override list `[1/2, 1, 10]` two expiries are dropped and 9 survives;
the ladder handed to the surface is `[9, 16, 30]`, so the second appended expiry is 14
days after the first, where the claim says 7 (it gives `[9, 16, 23]`). -/
theorem Simulator.nextExpiries_two_dropped : Simulator.nextExpiries ([] : List ℝ) [1 / 2, 1, 10] = some [9, 16, 30] := by
  have h : Simulator.ageExpiries ([1 / 2, 1, 10] : List ℝ) = [9] := by
    simp [Simulator.ageExpiries, Config.TIME_STEP]
    norm_num
  have hstep : Simulator.nextExpiries ([] : List ℝ) [1 / 2, 1, 10]
      = Simulator.appendExpiries (3 - (Simulator.ageExpiries ([1 / 2, 1, 10] : List ℝ)).length)
          0 (Simulator.ageExpiries [1 / 2, 1, 10]) := rfl
  rw [hstep, h]
  simp [Simulator.appendExpiries]
  norm_num

/-! ## The regime sampler -/

/-- C13: every row of the transition matrix has its three entries in `[0, 1]` and they
sum to exactly 1. -/
theorem Config.REGIME_TRANSITION_stochastic {α : Type} [LinearOrderedField α] (regime : Regime) :
    (∀ j : Fin 3, (0 : α) ≤ Config.REGIME_TRANSITION regime.toFin j ∧
        Config.REGIME_TRANSITION regime.toFin j ≤ (1 : α)) ∧
      (Config.REGIME_TRANSITION regime.toFin 0 + Config.REGIME_TRANSITION regime.toFin 1
        + Config.REGIME_TRANSITION regime.toFin 2 : α) = 1 ∧
      ∑ j : Fin 3, (Config.REGIME_TRANSITION regime.toFin j : α) = 1 := by
  cases regime <;>
    refine ⟨fun j => ?_, ?_, ?_⟩ <;>
    first
      | (fin_cases j <;> norm_num [Config.REGIME_TRANSITION, Regime.toFin])
      | norm_num [Config.REGIME_TRANSITION, Regime.toFin, Fin.sum_univ_three]

/-- C11: from CALM the draw `r = 1`, which `rand() / RAND_MAX` produces when `rand()`
returns `RAND_MAX`, passes all three tests `r < cumProb` and the sampler returns
regime 2, EVENT, whose transition probability from CALM is 0. -/
theorem Simulator.getNextRegime_calm_draw_one :
    Simulator.getNextRegime Regime.CALM (1 : ℚ) = Regime.EVENT ∧
      (Config.REGIME_TRANSITION Regime.CALM.toFin Regime.EVENT.toFin : ℚ) = 0 := by
  constructor
  · norm_num [Simulator.getNextRegime, Simulator.sampleRegime, Config.REGIME_TRANSITION,
      Regime.toFin, Regime.ofFin]
  · norm_num [Config.REGIME_TRANSITION, Regime.toFin]

/-- The sampling loop unrolled: two comparisons with cumulative probabilities. -/
theorem Simulator.getNextRegime_cases {α : Type} [LinearOrderedField α] (regime : Regime)
    (r : α) :
    Simulator.getNextRegime regime r =
      if r < Config.cumulativeTransition regime.toFin 0 then Regime.CALM
      else if r < Config.cumulativeTransition regime.toFin 1 then Regime.STRESS
      else Regime.EVENT := by
  simp only [Simulator.getNextRegime, Simulator.sampleRegime, Config.cumulativeTransition,
    zero_add, Regime.ofFin]
  split_ifs <;> rfl

/-- C12: for a draw `0 <= r < 1` the sampler returns the regime `j` with the smallest
index such that `r < P[i][0] + ... + P[i][j]`, and the draws sent to regime `j` are
exactly those of the half-open interval from the cumulative probability before `j` to
the one at `j`, whose length is `P[i][j]`. -/
theorem Simulator.getNextRegime_inverse_cdf {α : Type} [LinearOrderedField α]
    (regime : Regime) (r : α) (h0 : 0 ≤ r) (h1 : r < 1) :
    r < Config.cumulativeTransition regime.toFin (Simulator.getNextRegime regime r).toFin ∧
      (∀ k : Fin 3, k < (Simulator.getNextRegime regime r).toFin →
        Config.cumulativeTransition regime.toFin k ≤ r) ∧
      (∀ j : Fin 3, Simulator.getNextRegime regime r = Regime.ofFin j ↔
        (Config.cumulativeTransition regime.toFin j - Config.REGIME_TRANSITION regime.toFin j ≤ r
          ∧ r < Config.cumulativeTransition regime.toFin j)) := by
  have hsum : (Config.cumulativeTransition regime.toFin 2 : α) = 1 := by
    cases regime <;> norm_num [Config.cumulativeTransition, Config.REGIME_TRANSITION, Regime.toFin]
  rw [Simulator.getNextRegime_cases]
  refine ⟨?_, ?_, ?_⟩
  · split_ifs with ha hb
    · exact ha
    · exact hb
    · show r < Config.cumulativeTransition regime.toFin 2
      rw [hsum]; exact h1
  · intro k hk
    split_ifs at hk with ha hb
    · exact absurd hk (by fin_cases k <;> simp [Regime.toFin])
    · fin_cases k
      · exact not_lt.mp ha
      · exact absurd hk (by simp [Regime.toFin])
      · exact absurd hk (by simp [Regime.toFin])
    · fin_cases k
      · exact not_lt.mp ha
      · exact not_lt.mp hb
      · exact absurd hk (by simp [Regime.toFin])
  · intro j
    have e0 : (Config.cumulativeTransition regime.toFin 0 : α)
        - Config.REGIME_TRANSITION regime.toFin 0 = 0 := by
      simp [Config.cumulativeTransition]
    have e1 : (Config.cumulativeTransition regime.toFin 1 : α)
        - Config.REGIME_TRANSITION regime.toFin 1 = Config.cumulativeTransition regime.toFin 0 := by
      simp [Config.cumulativeTransition]
    have e2 : (Config.cumulativeTransition regime.toFin 2 : α)
        - Config.REGIME_TRANSITION regime.toFin 2 = Config.cumulativeTransition regime.toFin 1 := by
      simp [Config.cumulativeTransition]
    have hmono : (Config.cumulativeTransition regime.toFin 0 : α)
        ≤ Config.cumulativeTransition regime.toFin 1 := by
      cases regime <;>
        norm_num [Config.cumulativeTransition, Config.REGIME_TRANSITION, Regime.toFin]
    fin_cases j
    · show _ = Regime.ofFin 0 ↔ (Config.cumulativeTransition regime.toFin 0
          - Config.REGIME_TRANSITION regime.toFin 0 ≤ r
          ∧ r < Config.cumulativeTransition regime.toFin 0)
      rw [e0]
      split_ifs with ha hb
      · simp [Regime.ofFin, ha, h0]
      · simp [Regime.ofFin, ha]
      · simp [Regime.ofFin, ha]
    · show _ = Regime.ofFin 1 ↔ (Config.cumulativeTransition regime.toFin 1
          - Config.REGIME_TRANSITION regime.toFin 1 ≤ r
          ∧ r < Config.cumulativeTransition regime.toFin 1)
      rw [e1]
      split_ifs with ha hb
      · simp [Regime.ofFin, ha]
      · simp [Regime.ofFin, hb, not_lt.mp ha]
      · simp [Regime.ofFin, hb]
    · show _ = Regime.ofFin 2 ↔ (Config.cumulativeTransition regime.toFin 2
          - Config.REGIME_TRANSITION regime.toFin 2 ≤ r
          ∧ r < Config.cumulativeTransition regime.toFin 2)
      rw [e2, hsum]
      split_ifs with ha hb
      · simp [Regime.ofFin, lt_of_lt_of_le ha hmono]
      · simp [Regime.ofFin, hb]
      · simp [Regime.ofFin, not_lt.mp hb, h1]

/-! ## The surface constructor -/

theorem stdStod_thirty : stdStod "30" = Except.ok (StodValue.finite 30) := by
  have hmag : stodMagnitude "30".toList = some 30 := by
    have hraw : stodMagnitude "30".toList
        = some (((30 : ℕ) : ℚ) * (10 : ℚ) ^ ((0 : Int) - ((0 : ℕ) : Int))) := by
      rfl
    rw [hraw]
    norm_num
  have hsign : stodSign ("30".toList.dropWhile stodIsSpace) = (false, "30".toList) := by
    rfl
  have hinf : stodStartsWith [105, 110, 102] "30".toList = false := by rfl
  have hnan : stodStartsWith [110, 97, 110] "30".toList = false := by rfl
  have hfin : stodFinite false 30 = Except.ok (StodValue.finite 30) := by
    unfold stodFinite
    rw [if_neg]
    · rfl
    · rintro (h | ⟨h, -⟩) <;> norm_num at h
  unfold stdStod
  simp only [hsign, hinf, hnan, hmag, hfin]
  rfl

/-- Folding a step that adds the contribution of each position gives the initial totals
plus the sum of the contributions. -/
theorem Calculator.foldlM_contributions (riskOf : models.Option ℝ → Option Risk)
    (step : Risk → Option Security → Option Risk)
    (hnull : ∀ total, step total none = some total)
    (hsec : ∀ total sec, step total (some sec) =
      (Calculator.contribution riskOf sec).map fun c =>
        ⟨total.delta + c.delta, total.gamma + c.gamma, total.vega + c.vega,
          total.theta + c.theta⟩) :
    ∀ (positions : List (Option Security)) (total : Risk),
      positions.foldlM step total =
        (Calculator.contributions riskOf positions).map fun risks =>
          ⟨total.delta + (Calculator.sumRisks risks).delta,
            total.gamma + (Calculator.sumRisks risks).gamma,
            total.vega + (Calculator.sumRisks risks).vega,
            total.theta + (Calculator.sumRisks risks).theta⟩ := by
  intro positions
  induction positions with
  | nil =>
    intro total
    simp [Calculator.sumRisks, Calculator.contributions]
  | cons p rest ih =>
    intro total
    rw [List.foldlM_cons]
    cases p with
    | none =>
      simp only [hnull, Option.bind_eq_bind, Option.some_bind, Calculator.contributions]
      exact ih total
    | some sec =>
      simp only [hsec, Calculator.contributions, Option.bind_eq_bind, Option.pure_def]
      cases Calculator.contribution riskOf sec with
      | none => simp
      | some c =>
        simp only [Option.map_some', Option.some_bind, ih]
        cases Calculator.contributions riskOf rest with
        | none => simp
        | some risks =>
          simp only [Option.map_some', Option.some_bind, Calculator.sumRisks, List.map_cons,
            List.sum_cons, Option.some.injEq, Risk.mk.injEq]
          refine ⟨?_, ?_, ?_, ?_⟩ <;> ring

/-- A null entry adds no contribution. -/
theorem Calculator.contributions_insert_null (riskOf : models.Option ℝ → Option Risk) :
    ∀ (before after : List (Option Security)),
      Calculator.contributions riskOf (before ++ none :: after)
        = Calculator.contributions riskOf (before ++ after) := by
  intro before
  induction before with
  | nil => intro after; rfl
  | cons p rest ih =>
    intro after
    cases p with
    | none =>
      show Calculator.contributions riskOf (none :: (rest ++ none :: after))
        = Calculator.contributions riskOf (none :: (rest ++ after))
      simp only [Calculator.contributions, ih after]
    | some sec =>
      show Calculator.contributions riskOf (some sec :: (rest ++ none :: after))
        = Calculator.contributions riskOf (some sec :: (rest ++ after))
      simp only [Calculator.contributions, ih after]

/-- The contributions of a list of futures are their lot sizes as delta. -/
theorem Calculator.contributions_futures (riskOf : models.Option ℝ → Option Risk) :
    ∀ futures : List Future,
      Calculator.contributions riskOf (futures.map fun f => some (Security.future f))
        = some (futures.map fun f => ⟨(f.lotSize : ℝ), 0, 0, 0⟩) := by
  intro futures
  induction futures with
  | nil => rfl
  | cons f rest ih =>
    simp only [List.map_cons, Calculator.contributions, Calculator.contribution, ih]
    rfl

/-- A list of zeros sums to zero. -/
theorem sum_map_zero {β : Type} (l : List β) : (l.map fun _ => (0 : ℝ)).sum = 0 := by
  induction l with
  | nil => rfl
  | cons f rest ih => simp [ih]

/-- C19: the portfolio risk is the componentwise sum over the non-null positions of
`lotSize * calculateRisk` for an option, `(lotSize, 0, 0, 0)` for a future and zero for
anything else; a null entry inserted anywhere changes nothing, the empty list gives
`(0, 0, 0, 0)`, and a list of futures gives the sum of the lot sizes as delta and zero
gamma, vega and theta. -/
theorem Calculator.calculatePortfolioRisk_aggregation (market : Market ℝ) :
    (∀ positions, Calculator.calculatePortfolioRisk positions market
        = Calculator.portfolioSum positions market) ∧
      (∀ before after, Calculator.calculatePortfolioRisk (before ++ none :: after) market
        = Calculator.calculatePortfolioRisk (before ++ after) market) ∧
      Calculator.calculatePortfolioRisk [] market = some ⟨0, 0, 0, 0⟩ ∧
      (∀ futures : List Future,
        Calculator.calculatePortfolioRisk (futures.map fun f => some (Security.future f)) market
          = some ⟨(futures.map fun f => (f.lotSize : ℝ)).sum, 0, 0, 0⟩) := by
  have hsum : ∀ positions, Calculator.calculatePortfolioRisk positions market
      = Calculator.portfolioSum positions market := by
    intro positions
    have hfold := Calculator.foldlM_contributions
      (fun opt => Calculator.calculateRisk opt market) (Calculator.addPosition market)
      (fun _ => rfl)
      (by
        intro total sec
        cases sec with
        | option opt =>
          show (Calculator.calculateRisk opt market).bind _
            = ((Calculator.calculateRisk opt market).map _).map _
          cases Calculator.calculateRisk opt market with
          | none => rfl
          | some risk =>
            simp only [Option.some_bind, Option.map_some', Option.pure_def, Option.some.injEq,
              Risk.mk.injEq]
            refine ⟨?_, ?_, ?_, ?_⟩ <;> ring
        | future fut =>
          simp only [Calculator.contribution, Option.map_some']
          show some _ = some _
          simp
        | other =>
          simp only [Calculator.contribution, Option.map_some']
          show some _ = some _
          simp)
      positions ⟨0, 0, 0, 0⟩
    delta Calculator.calculatePortfolioRisk Calculator.portfolioSum
    rw [hfold]
    congr 1
    funext risks
    simp [Calculator.sumRisks]
  refine ⟨hsum, ?_, rfl, ?_⟩
  · intro before after
    rw [hsum, hsum]
    delta Calculator.portfolioSum
    rw [Calculator.contributions_insert_null]
  · intro futures
    rw [hsum]
    delta Calculator.portfolioSum
    rw [Calculator.contributions_futures]
    simp only [Option.map_some', Calculator.sumRisks, List.map_map, Option.some.injEq,
      Risk.mk.injEq]
    exact ⟨rfl, sum_map_zero _, sum_map_zero _, sum_map_zero _⟩

/-- For a draw below 1 the sampler returns a regime of positive transition probability. -/
theorem Simulator.getNextRegime_positive {α : Type} [LinearOrderedField α] (regime : Regime)
    (r : α) (h0 : 0 ≤ r) (h1 : r < 1) :
    0 < (Config.REGIME_TRANSITION regime.toFin (Simulator.getNextRegime regime r).toFin : α) := by
  rw [Simulator.getNextRegime_cases]
  cases regime <;>
    simp only [Config.cumulativeTransition, Config.REGIME_TRANSITION, Regime.toFin] <;>
    split_ifs <;>
    norm_num [Regime.toFin] at * <;>
    linarith

/-- From STRESS the draw 1/2 lies in `[0.15, 0.95)` and the sampler returns STRESS. -/
theorem Simulator.getNextRegime_inverse_cdf_witness :
    Simulator.getNextRegime Regime.STRESS (1 / 2 : ℚ) = Regime.STRESS :=
  ((Simulator.getNextRegime_inverse_cdf Regime.STRESS (1 / 2 : ℚ) (by norm_num)
    (by norm_num)).2.2 1).mpr
    (by norm_num [Config.cumulativeTransition, Config.REGIME_TRANSITION, Regime.toFin])

/-! ## Derivatives of the option price -/

/-- The derivative of `normCdf` is `normPdf`. -/
theorem Calculator.normCdf_hasDerivAt (x : ℝ) :
    HasDerivAt Calculator.normCdf (Calculator.normPdf x) x := by
  have herf : ∀ y : ℝ,
      HasDerivAt stdErf (2 / Real.sqrt Real.pi * Real.exp (-(y ^ 2))) y := by
    intro y
    have hcont : Continuous fun t : ℝ => Real.exp (-(t ^ 2)) := by fun_prop
    exact ((hcont.integral_hasStrictDerivAt 0 y).hasDerivAt).const_mul
      (2 / Real.sqrt Real.pi)
  have h1 : HasDerivAt (fun y : ℝ => y / Real.sqrt 2) (1 / Real.sqrt 2) x := by
    simpa using (hasDerivAt_id x).div_const (Real.sqrt 2)
  have h2 := (herf (x / Real.sqrt 2)).comp x h1
  have h3 := (h2.const_add 1).const_mul (0.5 : ℝ)
  have hval : 0.5 * (2 / Real.sqrt Real.pi * Real.exp (-((x / Real.sqrt 2) ^ 2))
      * (1 / Real.sqrt 2)) = Calculator.normPdf x := by
    unfold Calculator.normPdf Calculator.SQRT_2PI
    have hs2 : Real.sqrt 2 ^ 2 = 2 := Real.sq_sqrt (by norm_num)
    have hexp : -((x / Real.sqrt 2) ^ 2) = -0.5 * x * x := by
      rw [div_pow, hs2]; ring
    rw [hexp, Real.sqrt_mul (by norm_num : (0 : ℝ) ≤ 2)]
    have hpi : Real.sqrt Real.pi ≠ 0 := (Real.sqrt_pos.mpr Real.pi_pos).ne'
    have h2' : Real.sqrt 2 ≠ 0 := (Real.sqrt_pos.mpr (by norm_num)).ne'
    field_simp
    ring
  rw [← hval]
  exact h3

theorem Calculator.SQRT_2PI_pos : 0 < Calculator.SQRT_2PI :=
  Real.sqrt_pos.mpr (by positivity)

theorem Calculator.normPdf_neg (x : ℝ) : Calculator.normPdf (-x) = Calculator.normPdf x := by
  unfold Calculator.normPdf
  congr 2
  ring

/-- The identity `F * pdf(d1) = K * pdf(d2)` of the Black formula. -/
theorem Calculator.forward_mul_normPdf_d1 (forward strike sigma tte : ℝ) (hF : 0 < forward)
    (hK : 0 < strike) (hs : 0 < sigma) (ht : 0 < tte) :
    forward * Calculator.normPdf (Calculator.d1 forward strike sigma tte)
      = strike * Calculator.normPdf (Calculator.d2 forward strike sigma tte) := by
  have hsq : 0 < Real.sqrt tte := Real.sqrt_pos.mpr ht
  have hv : sigma * Real.sqrt tte ≠ 0 := (mul_pos hs hsq).ne'
  have hsqsq : Real.sqrt tte * Real.sqrt tte = tte := Real.mul_self_sqrt ht.le
  have hvd1 : sigma * Real.sqrt tte * Calculator.d1 forward strike sigma tte
      = Real.log (forward / strike) + 0.5 * sigma * sigma * tte := by
    unfold Calculator.d1
    field_simp
  have hexp : -0.5 * Calculator.d2 forward strike sigma tte
        * Calculator.d2 forward strike sigma tte
      = -0.5 * Calculator.d1 forward strike sigma tte * Calculator.d1 forward strike sigma tte
        + Real.log (forward / strike) := by
    unfold Calculator.d2
    have : (sigma * Real.sqrt tte) * (sigma * Real.sqrt tte) = sigma * sigma * tte := by
      rw [mul_mul_mul_comm, hsqsq]
    linear_combination hvd1 - 0.5 * this
  unfold Calculator.normPdf
  rw [hexp, Real.exp_add, Real.exp_log (div_pos hF hK)]
  have hK' : strike ≠ 0 := hK.ne'
  have hc : Calculator.SQRT_2PI ≠ 0 := Calculator.SQRT_2PI_pos.ne'
  field_simp
  ring

/-- The derivatives of the call bracket `F * N(d1) - K * N(d1 - v)` and of the put
bracket `K * N(-(d1 - v)) - F * N(-d1)` along any differentiable path on which
`F * pdf(d1) = K * pdf(d1 - v)`. -/
theorem Calculator.hasDerivAt_brackets (F D V : ℝ → ℝ) (F' D' V' K t : ℝ)
    (hF : HasDerivAt F F' t) (hD : HasDerivAt D D' t) (hV : HasDerivAt V V' t)
    (hid : F t * Calculator.normPdf (D t) = K * Calculator.normPdf (D t - V t)) :
    HasDerivAt (fun x => F x * Calculator.normCdf (D x) - K * Calculator.normCdf (D x - V x))
        (F' * Calculator.normCdf (D t) + F t * Calculator.normPdf (D t) * V') t ∧
      HasDerivAt
        (fun x => K * Calculator.normCdf (-(D x - V x)) - F x * Calculator.normCdf (-D x))
        (-(F' * Calculator.normCdf (-D t)) + F t * Calculator.normPdf (D t) * V') t := by
  constructor
  · have h1 := (Calculator.normCdf_hasDerivAt (D t)).comp t hD
    have h2 := (Calculator.normCdf_hasDerivAt (D t - V t)).comp t (hD.sub hV)
    have h3 := (hF.mul h1).sub (h2.const_mul K)
    refine h3.congr_deriv ?_
    simp only [Function.comp_apply]
    linear_combination (D' - V') * hid
  · have h1 := (Calculator.normCdf_hasDerivAt (-D t)).comp t hD.neg
    have h2 := (Calculator.normCdf_hasDerivAt (-(D t - V t))).comp t (hD.sub hV).neg
    have h3 := (h2.const_mul K).sub (hF.mul h1)
    refine h3.congr_deriv ?_
    simp only [Function.comp_apply, Calculator.normPdf_neg]
    linear_combination (D' - V') * hid


/-- Spot derivative of the price at a fixed vol: `exp(r T)` times `df * N(d1)` for a call
and `exp(r T)` times `-df * N(-d1)` for a put. -/
theorem Calculator.priceAtVol_hasDerivAt_spot (optionType : OptionType)
    (spot rate strike expiry sigma : ℝ) (hS : 0 < spot) (hK : 0 < strike) (he : 0 < expiry)
    (hs : 0 < sigma) :
    HasDerivAt (fun S => Calculator.priceAtVol optionType S rate strike expiry sigma)
      (Real.exp (rate * (expiry / 365)) *
        (if optionType = OptionType.CALL then
          Real.exp (-rate * (expiry / 365)) * Calculator.normCdf
            (Calculator.d1 (spot * Real.exp (rate * (expiry / 365))) strike sigma (expiry / 365))
        else
          -Real.exp (-rate * (expiry / 365)) * Calculator.normCdf
            (-Calculator.d1 (spot * Real.exp (rate * (expiry / 365))) strike sigma
              (expiry / 365))))
      spot := by
  have ht : 0 < expiry / 365 := by positivity
  have hc : 0 < Real.exp (rate * (expiry / 365)) := Real.exp_pos _
  have hFpos : 0 < spot * Real.exp (rate * (expiry / 365)) := mul_pos hS hc
  have hF : HasDerivAt (fun S : ℝ => S * Real.exp (rate * (expiry / 365)))
      (Real.exp (rate * (expiry / 365))) spot := by
    simpa using (hasDerivAt_id spot).mul_const (Real.exp (rate * (expiry / 365)))
  have hd1 : DifferentiableAt ℝ (fun F => Calculator.d1 F strike sigma (expiry / 365))
      (spot * Real.exp (rate * (expiry / 365))) := by
    unfold Calculator.d1
    have hne : spot * Real.exp (rate * (expiry / 365)) / strike ≠ 0 :=
      (div_pos hFpos hK).ne'
    have h1 : DifferentiableAt ℝ (fun F : ℝ => F / strike)
        (spot * Real.exp (rate * (expiry / 365))) := differentiableAt_id.div_const strike
    exact ((h1.log hne).add_const _).div_const _
  have hD : HasDerivAt
      (fun S : ℝ => Calculator.d1 (S * Real.exp (rate * (expiry / 365))) strike sigma
        (expiry / 365))
      (deriv (fun F => Calculator.d1 F strike sigma (expiry / 365))
          (spot * Real.exp (rate * (expiry / 365))) * Real.exp (rate * (expiry / 365)))
      spot :=
    hd1.hasDerivAt.comp spot hF
  have hV : HasDerivAt (fun _ : ℝ => sigma * Real.sqrt (expiry / 365)) 0 spot :=
    hasDerivAt_const _ _
  have hid := Calculator.forward_mul_normPdf_d1 _ strike sigma (expiry / 365) hFpos hK hs ht
  unfold Calculator.d2 at hid
  by_cases hty : optionType = OptionType.CALL
  · have h := (Calculator.hasDerivAt_brackets _ _ _ _ _ _ strike spot hF hD hV hid).1.const_mul
      (Real.exp (-rate * (expiry / 365)))
    unfold Calculator.priceAtVol Calculator.d2
    simp only [hty, if_true]
    refine h.congr_deriv ?_
    ring
  · have h := (Calculator.hasDerivAt_brackets _ _ _ _ _ _ strike spot hF hD hV hid).2.const_mul
      (Real.exp (-rate * (expiry / 365)))
    unfold Calculator.priceAtVol Calculator.d2
    simp only [hty, if_false]
    refine h.congr_deriv ?_
    ring

/-- Vol derivative of the price at a fixed spot: `df * F * pdf(d1) * sqrt(T)`, the same
for calls and puts. -/
theorem Calculator.priceAtVol_hasDerivAt_sigma (optionType : OptionType)
    (spot rate strike expiry sigma : ℝ) (hS : 0 < spot) (hK : 0 < strike) (he : 0 < expiry)
    (hs : 0 < sigma) :
    HasDerivAt (fun s => Calculator.priceAtVol optionType spot rate strike expiry s)
      (Real.exp (-rate * (expiry / 365)) * (spot * Real.exp (rate * (expiry / 365)))
        * Calculator.normPdf
          (Calculator.d1 (spot * Real.exp (rate * (expiry / 365))) strike sigma (expiry / 365))
        * Real.sqrt (expiry / 365))
      sigma := by
  have ht : 0 < expiry / 365 := by positivity
  have hFpos : 0 < spot * Real.exp (rate * (expiry / 365)) := mul_pos hS (Real.exp_pos _)
  have hF : HasDerivAt (fun _ : ℝ => spot * Real.exp (rate * (expiry / 365))) 0 sigma :=
    hasDerivAt_const _ _
  have hd1 : DifferentiableAt ℝ
      (fun s => Calculator.d1 (spot * Real.exp (rate * (expiry / 365))) strike s
        (expiry / 365)) sigma := by
    unfold Calculator.d1
    have hden : sigma * Real.sqrt (expiry / 365) ≠ 0 :=
      (mul_pos hs (Real.sqrt_pos.mpr ht)).ne'
    have hnum : DifferentiableAt ℝ
        (fun s : ℝ => Real.log (spot * Real.exp (rate * (expiry / 365)) / strike)
          + 0.5 * s * s * (expiry / 365)) sigma := by fun_prop
    have hd : DifferentiableAt ℝ (fun s : ℝ => s * Real.sqrt (expiry / 365)) sigma := by
      fun_prop
    exact hnum.div hd hden
  have hD := hd1.hasDerivAt
  have hV : HasDerivAt (fun s : ℝ => s * Real.sqrt (expiry / 365))
      (Real.sqrt (expiry / 365)) sigma := by
    simpa using (hasDerivAt_id sigma).mul_const (Real.sqrt (expiry / 365))
  have hid := Calculator.forward_mul_normPdf_d1 _ strike sigma (expiry / 365) hFpos hK hs ht
  unfold Calculator.d2 at hid
  by_cases hty : optionType = OptionType.CALL
  · have h := (Calculator.hasDerivAt_brackets _ _ _ _ _ _ strike sigma hF hD hV hid).1.const_mul
      (Real.exp (-rate * (expiry / 365)))
    unfold Calculator.priceAtVol Calculator.d2
    simp only [hty, if_true]
    refine h.congr_deriv ?_
    ring
  · have h := (Calculator.hasDerivAt_brackets _ _ _ _ _ _ strike sigma hF hD hV hid).2.const_mul
      (Real.exp (-rate * (expiry / 365)))
    unfold Calculator.priceAtVol Calculator.d2
    simp only [hty, if_false]
    refine h.congr_deriv ?_
    ring


/-- Derivative of the price at a fixed vol with respect to the time to expiry in years:
minus `theta + rate * price`. -/
theorem Calculator.priceAtVol_hasDerivAt_years (optionType : OptionType)
    (spot rate strike expiry sigma : ℝ) (hS : 0 < spot) (hK : 0 < strike) (he : 0 < expiry)
    (hs : 0 < sigma) :
    HasDerivAt (fun T => Calculator.priceAtVol optionType spot rate strike (365 * T) sigma)
      (-((Calculator.riskAtVol optionType spot rate strike expiry sigma).theta
          + rate * Calculator.priceAtVol optionType spot rate strike expiry sigma))
      (expiry / 365) := by
  have hexpiry : HasDerivAt
      (fun e => Calculator.priceAtVol optionType spot rate strike e sigma)
      (-((Calculator.riskAtVol optionType spot rate strike expiry sigma).theta
          + rate * Calculator.priceAtVol optionType spot rate strike expiry sigma) / 365)
      expiry := by
    have ht : 0 < expiry / 365 := by positivity
    have hsq : 0 < Real.sqrt (expiry / 365) := Real.sqrt_pos.mpr ht
    have hFpos : 0 < spot * Real.exp (rate * (expiry / 365)) := mul_pos hS (Real.exp_pos _)
    have htte : HasDerivAt (fun e : ℝ => e / 365) (1 / 365) expiry := by
      simpa using (hasDerivAt_id expiry).div_const 365
    have hF : HasDerivAt (fun e : ℝ => spot * Real.exp (rate * (e / 365)))
        (spot * (Real.exp (rate * (expiry / 365)) * (rate * (1 / 365)))) expiry :=
      ((htte.const_mul rate).exp).const_mul spot
    have hdf : HasDerivAt (fun e : ℝ => Real.exp (-rate * (e / 365)))
        (Real.exp (-rate * (expiry / 365)) * (-rate * (1 / 365))) expiry :=
      (htte.const_mul (-rate)).exp
    have hsqrt : HasDerivAt (fun e : ℝ => Real.sqrt (e / 365))
        (1 / (2 * Real.sqrt (expiry / 365)) * (1 / 365)) expiry :=
      (Real.hasDerivAt_sqrt ht.ne').comp expiry htte
    have hV : HasDerivAt (fun e : ℝ => sigma * Real.sqrt (e / 365))
        (sigma * (1 / (2 * Real.sqrt (expiry / 365)) * (1 / 365))) expiry :=
      hsqrt.const_mul sigma
    have hDdiff : DifferentiableAt ℝ
        (fun e : ℝ => Calculator.d1 (spot * Real.exp (rate * (e / 365))) strike sigma (e / 365))
        expiry := by
      unfold Calculator.d1
      have hne : spot * Real.exp (rate * (expiry / 365)) / strike ≠ 0 := (div_pos hFpos hK).ne'
      have hnum : DifferentiableAt ℝ (fun e : ℝ =>
          Real.log (spot * Real.exp (rate * (e / 365)) / strike)
            + 0.5 * sigma * sigma * (e / 365)) expiry :=
        ((hF.differentiableAt.div_const strike).log hne).add
          (htte.differentiableAt.const_mul (0.5 * sigma * sigma))
      exact hnum.div hV.differentiableAt (mul_pos hs hsq).ne'
    have hD := hDdiff.hasDerivAt
    have hid := Calculator.forward_mul_normPdf_d1 _ strike sigma (expiry / 365) hFpos hK hs ht
    unfold Calculator.d2 at hid
    by_cases hty : optionType = OptionType.CALL
    · have h := hdf.mul
        (Calculator.hasDerivAt_brackets _ _ _ _ _ _ strike expiry hF hD hV hid).1
      unfold Calculator.priceAtVol Calculator.riskAtVol Calculator.d2
      simp only [hty, if_true]
      refine h.congr_deriv ?_
      field_simp
      ring
    · have h := hdf.mul
        (Calculator.hasDerivAt_brackets _ _ _ _ _ _ strike expiry hF hD hV hid).2
      unfold Calculator.priceAtVol Calculator.riskAtVol Calculator.d2
      simp only [hty, if_false]
      refine h.congr_deriv ?_
      field_simp
      ring
  have hpt : 365 * (expiry / 365) = expiry := by field_simp
  have hin : HasDerivAt (fun T : ℝ => 365 * T) 365 (expiry / 365) := by
    simpa using (hasDerivAt_id (expiry / 365)).const_mul (365 : ℝ)
  have key : HasDerivAt
      ((fun e => Calculator.priceAtVol optionType spot rate strike e sigma)
        ∘ (fun T : ℝ => 365 * T))
      (-((Calculator.riskAtVol optionType spot rate strike expiry sigma).theta
          + rate * Calculator.priceAtVol optionType spot rate strike expiry sigma) / 365 * 365)
      (expiry / 365) := by
    apply HasDerivAt.comp
    · rw [hpt]
      exact hexpiry
    · exact hin
  exact key.congr_deriv (by field_simp)

/-- When the surface returns `sigma`, `priceOption` returns the price at that vol and
`calculateRisk` the Greeks at that vol. -/
theorem Calculator.priceOption_calculateRisk_atVol (market : Market ℝ) (asset : Asset)
    (strike expiry : ℝ) (optionType : OptionType) (lotSize : Int) (sigma : ℝ)
    (h : market.volSurface.getVol strike
      (market.spot * Real.exp (market.interestRate * (expiry / 365))) expiry = some sigma) :
    Calculator.priceOption ⟨asset, strike, expiry, optionType, lotSize⟩ market
        = some (Calculator.priceAtVol optionType market.spot market.interestRate strike expiry
            sigma) ∧
      Calculator.calculateRisk ⟨asset, strike, expiry, optionType, lotSize⟩ market
        = some (Calculator.riskAtVol optionType market.spot market.interestRate strike expiry
            sigma) := by
  constructor
  · unfold Calculator.priceOption Calculator.getOptionPricerInputs Calculator.priceAtVol
      Calculator.d2 Calculator.d1
    by_cases hty : optionType = OptionType.CALL <;> simp [h, hty]
  · unfold Calculator.calculateRisk Calculator.getOptionPricerInputs Calculator.riskAtVol
      Calculator.d1
    by_cases hty : optionType = OptionType.CALL <;> simp [h, hty]

/-- The surface without expiries returns the fallback vol 0.15 at every strike. -/
theorem emptySurface_getVol (est strike forward expiry : ℝ) :
    (⟨[], [], est⟩ : VolSurface ℝ).getVol strike forward expiry = some 0.15 := by
  unfold VolSurface.getVol VolSurface.getNormStrike
  simp [VolSurface.getAtmVol, VolSurface.getVolNormStrike]

theorem flatSurface_getVol (sigma forward expiry : ℝ) (hf : 0 < forward) (he : 1 < expiry) :
    (flatSurface sigma).getVol forward forward expiry = some sigma := by
  apply VolSurface.getVol_forward _ _ _ _ hf
  have hlb : lowerBound ([-1, 1] : List ℝ) 0 = 1 := by
    simp [lowerBound, lowerBoundLoop]
  have hsm : (⟨[-1, 1], [sigma, sigma]⟩ : Smile ℝ).getVol 0 = some sigma := by
    simp [Smile.getVol, hlb, vecAt]
  simp [VolSurface.getAtmVol, VolSurface.getVolNormStrike, flatSurface, he, hsm]


/-- C18: for a market with positive spot, an option with positive strike and expiry,
and surfaces that are flat at the level `s` for every `s` near `sigma > 0`, the
derivative of `priceOption` with respect to the vol level at `sigma` is the vega of
`calculateRisk`, which is `df * forward * pdf(d1) * sqrt(T)` for calls and puts alike. -/
theorem Calculator.priceOption_vega (market : Market ℝ) (surface : ℝ → VolSurface ℝ)
    (asset : Asset) (strike expiry : ℝ) (optionType : OptionType) (lotSize : Int)
    (sigma : ℝ) (hS : 0 < market.spot) (hK : 0 < strike) (he : 0 < expiry) (hs : 0 < sigma)
    (hflat : ∀ᶠ s in nhds sigma, (surface s).getVol strike
      (market.spot * Real.exp (market.interestRate * (expiry / 365))) expiry = some s) :
    ∃ (price : ℝ → ℝ) (risk : Risk),
      (∀ᶠ s in nhds sigma,
        Calculator.priceOption ⟨asset, strike, expiry, optionType, lotSize⟩
          { market with volSurface := surface s } = some (price s)) ∧
      Calculator.calculateRisk ⟨asset, strike, expiry, optionType, lotSize⟩
        { market with volSurface := surface sigma } = some risk ∧
      HasDerivAt price risk.vega sigma ∧
      risk.vega = Real.exp (-market.interestRate * (expiry / 365))
        * (market.spot * Real.exp (market.interestRate * (expiry / 365)))
        * Calculator.normPdf (Calculator.d1
            (market.spot * Real.exp (market.interestRate * (expiry / 365))) strike sigma
            (expiry / 365))
        * Real.sqrt (expiry / 365) := by
  refine ⟨fun s => Calculator.priceAtVol optionType market.spot market.interestRate strike
      expiry s,
    Calculator.riskAtVol optionType market.spot market.interestRate strike expiry sigma,
    ?_, ?_, ?_, rfl⟩
  · exact hflat.mono fun s h =>
      (Calculator.priceOption_calculateRisk_atVol { market with volSurface := surface s }
        asset strike expiry optionType lotSize s h).1
  · exact (Calculator.priceOption_calculateRisk_atVol
      { market with volSurface := surface sigma } asset strike expiry optionType lotSize sigma
      hflat.self_of_nhds).2
  · exact Calculator.priceAtVol_hasDerivAt_sigma optionType market.spot market.interestRate
      strike expiry sigma hS hK he hs

/-- The put at strike 100 and expiry 365 days on the example market, with the surface
flat at every level, has its vega as the derivative of its price at the level 1/5. -/
theorem Calculator.priceOption_vega_witness :
    ∃ (price : ℝ → ℝ) (risk : Risk),
      (∀ᶠ s in nhds (1 / 5 : ℝ),
        Calculator.priceOption ⟨⟨".NDX"⟩, 100, 365, OptionType.PUT, 1⟩
          { exampleMarket with volSurface := flatSurface s } = some (price s)) ∧
      Calculator.calculateRisk ⟨⟨".NDX"⟩, 100, 365, OptionType.PUT, 1⟩
        { exampleMarket with volSurface := flatSurface (1 / 5) } = some risk ∧
      HasDerivAt price risk.vega (1 / 5) := by
  have hF : exampleMarket.spot * Real.exp (exampleMarket.interestRate * (365 / 365)) = 100 := by
    simp [exampleMarket]
  obtain ⟨price, risk, h1, h2, h3, -⟩ :=
    Calculator.priceOption_vega exampleMarket flatSurface ⟨".NDX"⟩ 100 365 OptionType.PUT 1
      (1 / 5) (by norm_num [exampleMarket]) (by norm_num) (by norm_num) (by norm_num)
      (Filter.Eventually.of_forall fun s => by
        rw [hF]
        exact flatSurface_getVol s 100 365 (by norm_num) (by norm_num))
  exact ⟨price, risk, h1, h2, h3⟩


/-- The normal CDF is at least one half on the non-negative half line. -/
theorem Calculator.normCdf_ge_half (x : ℝ) (hx : 0 ≤ x) : 1 / 2 ≤ Calculator.normCdf x := by
  have herf : 0 ≤ stdErf (x / Real.sqrt 2) := by
    unfold stdErf
    apply mul_nonneg
    · positivity
    · exact intervalIntegral.integral_nonneg (div_nonneg hx (Real.sqrt_nonneg 2))
        fun u _ => (Real.exp_pos _).le
  unfold Calculator.normCdf
  linarith

/-- C16: for a market with positive spot whose surface returns the same vol
`sigma > 0` for every spot near the market's, and an option with positive strike and
expiry, the derivative of `priceOption` with respect to the spot is
`exp(rate * expiry / 365)` times the delta of `calculateRisk`; the delta itself is the
derivative with respect to the forward `spot * exp(rate * expiry / 365)`, and it is the
derivative with respect to the spot when the rate is 0.  For calls and for puts. -/
theorem Calculator.priceOption_spot_derivative (market : Market ℝ) (asset : Asset)
    (strike expiry : ℝ) (optionType : OptionType) (lotSize : Int) (sigma : ℝ)
    (hS : 0 < market.spot) (hK : 0 < strike) (he : 0 < expiry) (hs : 0 < sigma)
    (hflat : ∀ᶠ S in nhds market.spot, market.volSurface.getVol strike
      (S * Real.exp (market.interestRate * (expiry / 365))) expiry = some sigma) :
    ∃ (price : ℝ → ℝ) (risk : Risk),
      (∀ᶠ S in nhds market.spot,
        Calculator.priceOption ⟨asset, strike, expiry, optionType, lotSize⟩
          { market with spot := S } = some (price S)) ∧
      Calculator.calculateRisk ⟨asset, strike, expiry, optionType, lotSize⟩ market
        = some risk ∧
      HasDerivAt price (Real.exp (market.interestRate * (expiry / 365)) * risk.delta)
        market.spot ∧
      HasDerivAt (fun F => price (F / Real.exp (market.interestRate * (expiry / 365))))
        risk.delta (market.spot * Real.exp (market.interestRate * (expiry / 365))) ∧
      (market.interestRate = 0 → HasDerivAt price risk.delta market.spot) := by
  have hprice := Calculator.priceAtVol_hasDerivAt_spot optionType market.spot
    market.interestRate strike expiry sigma hS hK he hs
  have hdelta : (Calculator.riskAtVol optionType market.spot market.interestRate strike expiry
      sigma).delta
      = if optionType = OptionType.CALL then
          Real.exp (-market.interestRate * (expiry / 365)) * Calculator.normCdf
            (Calculator.d1 (market.spot * Real.exp (market.interestRate * (expiry / 365)))
              strike sigma (expiry / 365))
        else
          -Real.exp (-market.interestRate * (expiry / 365)) * Calculator.normCdf
            (-Calculator.d1 (market.spot * Real.exp (market.interestRate * (expiry / 365)))
              strike sigma (expiry / 365)) := rfl
  rw [← hdelta] at hprice
  have hc : Real.exp (market.interestRate * (expiry / 365)) ≠ 0 := (Real.exp_pos _).ne'
  refine ⟨fun S => Calculator.priceAtVol optionType S market.interestRate strike expiry sigma,
    Calculator.riskAtVol optionType market.spot market.interestRate strike expiry sigma,
    ?_, ?_, hprice, ?_, ?_⟩
  · exact hflat.mono fun S h =>
      (Calculator.priceOption_calculateRisk_atVol { market with spot := S } asset strike
        expiry optionType lotSize sigma h).1
  · exact (Calculator.priceOption_calculateRisk_atVol market asset strike expiry optionType
      lotSize sigma hflat.self_of_nhds).2
  · have hdiv : HasDerivAt
        (fun F : ℝ => F / Real.exp (market.interestRate * (expiry / 365)))
        (1 / Real.exp (market.interestRate * (expiry / 365)))
        (market.spot * Real.exp (market.interestRate * (expiry / 365))) := by
      simpa using (hasDerivAt_id (market.spot * Real.exp (market.interestRate * (expiry / 365)))).div_const
        (Real.exp (market.interestRate * (expiry / 365)))
    have hpt : market.spot * Real.exp (market.interestRate * (expiry / 365))
        / Real.exp (market.interestRate * (expiry / 365)) = market.spot := by
      field_simp
    have key : HasDerivAt
        ((fun S => Calculator.priceAtVol optionType S market.interestRate strike expiry sigma)
          ∘ (fun F : ℝ => F / Real.exp (market.interestRate * (expiry / 365))))
        (Real.exp (market.interestRate * (expiry / 365)) *
          (Calculator.riskAtVol optionType market.spot market.interestRate strike expiry
            sigma).delta * (1 / Real.exp (market.interestRate * (expiry / 365))))
        (market.spot * Real.exp (market.interestRate * (expiry / 365))) := by
      apply HasDerivAt.comp
      · rw [hpt]
        exact hprice
      · exact hdiv
    exact key.congr_deriv (by field_simp)
  · intro hr
    refine hprice.congr_deriv ?_
    rw [hr, zero_mul, Real.exp_zero, one_mul]

/-- The call at strike 100 and expiry 365 days on the market at spot 100 and rate 5%
with the vol 0.15 everywhere: the derivative of its price with respect to the spot is
`exp(0.05)` times its delta. -/
theorem Calculator.priceOption_spot_derivative_witness :
    ∃ (price : ℝ → ℝ) (risk : Risk),
      (∀ᶠ S in nhds (100 : ℝ),
        Calculator.priceOption ⟨⟨".NDX"⟩, 100, 365, OptionType.CALL, 1⟩
          { carryMarket with spot := S } = some (price S)) ∧
      Calculator.calculateRisk ⟨⟨".NDX"⟩, 100, 365, OptionType.CALL, 1⟩ carryMarket
        = some risk ∧
      HasDerivAt price (Real.exp (1 / 20 * (365 / 365)) * risk.delta) 100 := by
  obtain ⟨price, risk, h1, h2, h3, -, -⟩ :=
    Calculator.priceOption_spot_derivative carryMarket ⟨".NDX"⟩ 100 365 OptionType.CALL 1
      0.15 (by norm_num [carryMarket]) (by norm_num) (by norm_num) (by norm_num)
      (Filter.Eventually.of_forall fun S => emptySurface_getVol _ _ _ _)
  exact ⟨price, risk, h1, h2, h3⟩

theorem carry_d1_nonneg :
    0 ≤ Calculator.d1 (100 * Real.exp (1 / 20 * (365 / 365))) 100 0.15 (365 / 365) := by
  unfold Calculator.d1
  have harg : (100 : ℝ) * Real.exp (1 / 20 * (365 / 365)) / 100
      = Real.exp (1 / 20) := by
    rw [div_self (by norm_num : (365 : ℝ) ≠ 0), mul_one]
    field_simp
  rw [harg, Real.log_exp]
  apply div_nonneg
  · norm_num
  · exact mul_nonneg (by norm_num) (Real.sqrt_nonneg _)

/-- On the market at spot 100 and rate 5% with the vol 0.15 everywhere, the delta of
the call at strike 100 and expiry 365 days is not the derivative of its price with respect
to the spot. -/
theorem Calculator.delta_differs_from_spot_derivative :
    ∃ (price : ℝ → ℝ) (risk : Risk),
      (∀ S : ℝ, Calculator.priceOption ⟨⟨".NDX"⟩, 100, 365, OptionType.CALL, 1⟩
          { carryMarket with spot := S } = some (price S)) ∧
      Calculator.calculateRisk ⟨⟨".NDX"⟩, 100, 365, OptionType.CALL, 1⟩ carryMarket
        = some risk ∧
      ¬ HasDerivAt price risk.delta carryMarket.spot := by
  refine ⟨fun S => Calculator.priceAtVol OptionType.CALL S (1 / 20) 100 365 0.15,
    Calculator.riskAtVol OptionType.CALL 100 (1 / 20) 100 365 0.15, ?_, ?_, ?_⟩
  · intro S
    exact (Calculator.priceOption_calculateRisk_atVol { carryMarket with spot := S }
      ⟨".NDX"⟩ 100 365 OptionType.CALL 1 0.15 (emptySurface_getVol _ _ _ _)).1
  · exact (Calculator.priceOption_calculateRisk_atVol carryMarket ⟨".NDX"⟩ 100 365
      OptionType.CALL 1 0.15 (emptySurface_getVol _ _ _ _)).2
  · intro hclaim
    have hprice := Calculator.priceAtVol_hasDerivAt_spot OptionType.CALL 100 (1 / 20) 100 365
      0.15 (by norm_num) (by norm_num) (by norm_num) (by norm_num)
    have huniq := hprice.unique hclaim
    unfold Calculator.riskAtVol at huniq
    simp only [if_true] at huniq
    have hN := Calculator.normCdf_ge_half _ carry_d1_nonneg
    have hdf : 0 < Real.exp (-(1 / 20 : ℝ) * (365 / 365)) := Real.exp_pos _
    have hgt : 1 < Real.exp ((1 / 20 : ℝ) * (365 / 365)) :=
      Real.one_lt_exp_iff.mpr (by norm_num)
    have hpos : 0 < Real.exp (-(1 / 20 : ℝ) * (365 / 365)) * Calculator.normCdf
        (Calculator.d1 (100 * Real.exp (1 / 20 * (365 / 365))) 100 0.15 (365 / 365)) :=
      mul_pos hdf (by linarith)
    nlinarith


/-- The call at strike 100 and expiry 365 days on the market at spot 100, rate 5% and
vol 0.15 has a positive price. -/
theorem carry_call_price_pos :
    0 < Calculator.priceAtVol OptionType.CALL 100 (1 / 20) 100 365 0.15 := by
  have hmonotone : Monotone Calculator.normCdf := by
    apply monotone_of_deriv_nonneg
    · exact fun x => (Calculator.normCdf_hasDerivAt x).differentiableAt
    · intro x
      rw [(Calculator.normCdf_hasDerivAt x).deriv]
      unfold Calculator.normPdf
      exact div_nonneg (Real.exp_pos _).le Calculator.SQRT_2PI_pos.le
  have hd2 : 0 ≤ Calculator.d2 (100 * Real.exp (1 / 20 * (365 / 365))) 100 0.15
      (365 / 365) := by
    unfold Calculator.d2 Calculator.d1
    have harg : (100 : ℝ) * Real.exp (1 / 20 * (365 / 365)) / 100
        = Real.exp (1 / 20) := by
      rw [div_self (by norm_num : (365 : ℝ) ≠ 0), mul_one]
      field_simp
    rw [harg, Real.log_exp, div_self (by norm_num : (365 : ℝ) ≠ 0), Real.sqrt_one]
    norm_num
  unfold Calculator.priceAtVol
  simp only [if_true]
  have hN2 := Calculator.normCdf_ge_half _ hd2
  have hle : Calculator.d2 (100 * Real.exp (1 / 20 * (365 / 365))) 100 0.15 (365 / 365)
      ≤ Calculator.d1 (100 * Real.exp (1 / 20 * (365 / 365))) 100 0.15 (365 / 365) := by
    unfold Calculator.d2
    have : 0 ≤ (0.15 : ℝ) * Real.sqrt (365 / 365) :=
      mul_nonneg (by norm_num) (Real.sqrt_nonneg _)
    linarith
  have hmono := hmonotone hle
  have hgt : 1 < Real.exp ((1 / 20 : ℝ) * (365 / 365)) :=
    Real.one_lt_exp_iff.mpr (by norm_num)
  apply mul_pos (Real.exp_pos _)
  nlinarith

/-- C17: on the market at spot 100 and rate 5% with the vol 0.15 everywhere, for the
call at strike 100 and expiry 365 days, minus the derivative of the price with respect to
the time to expiry in years is `theta + rate * price` with `rate * price > 0`, so it is
not the theta of `calculateRisk`. -/
theorem Calculator.theta_differs_from_time_derivative :
    ∃ (price : ℝ → ℝ) (risk : Risk),
      (∀ expiry : ℝ, Calculator.priceOption ⟨⟨".NDX"⟩, 100, expiry, OptionType.CALL, 1⟩
          carryMarket = some (price expiry)) ∧
      Calculator.calculateRisk ⟨⟨".NDX"⟩, 100, 365, OptionType.CALL, 1⟩ carryMarket
        = some risk ∧
      HasDerivAt (fun T => price (365 * T))
        (-(risk.theta + carryMarket.interestRate * price 365)) 1 ∧
      0 < carryMarket.interestRate * price 365 ∧
      ¬ HasDerivAt (fun T => price (365 * T)) (-risk.theta) 1 := by
  have hderiv := Calculator.priceAtVol_hasDerivAt_years OptionType.CALL 100 (1 / 20) 100 365
    0.15 (by norm_num) (by norm_num) (by norm_num) (by norm_num)
  rw [div_self (by norm_num : (365 : ℝ) ≠ 0)] at hderiv
  have hpos : 0 < (1 / 20 : ℝ) * Calculator.priceAtVol OptionType.CALL 100 (1 / 20) 100 365 0.15 :=
    mul_pos (by norm_num) carry_call_price_pos
  refine ⟨fun e => Calculator.priceAtVol OptionType.CALL 100 (1 / 20) 100 e 0.15,
    Calculator.riskAtVol OptionType.CALL 100 (1 / 20) 100 365 0.15, ?_, ?_, hderiv, hpos, ?_⟩
  · intro e
    exact (Calculator.priceOption_calculateRisk_atVol carryMarket ⟨".NDX"⟩ 100 e
      OptionType.CALL 1 0.15 (emptySurface_getVol _ _ _ _)).1
  · exact (Calculator.priceOption_calculateRisk_atVol carryMarket ⟨".NDX"⟩ 100 365
      OptionType.CALL 1 0.15 (emptySurface_getVol _ _ _ _)).2
  · intro hclaim
    have huniq := hderiv.unique hclaim
    linarith

/-! ## The initial market -/

/-- Ageing undoes a shift of positive expiries by one time step. -/
theorem Simulator.ageExpiries_map_add {α : Type} [LinearOrderedField α] :
    ∀ xs : List α, (∀ x ∈ xs, 0 < x) →
      Simulator.ageExpiries (xs.map fun x => x + (Config.TIME_STEP : α)) = xs := by
  intro xs
  induction xs with
  | nil => intro _; rfl
  | cons x rest ih =>
    intro h
    have hx : 0 < x := h x (List.mem_cons_self _ _)
    have hrest := ih fun y hy => h y (List.mem_cons_of_mem _ hy)
    unfold Simulator.ageExpiries at hrest ⊢
    simp only [List.map_cons, List.filter_cons, add_sub_cancel_right, gt_iff_lt, hx,
      decide_True, if_true]
    rw [hrest]

/-- When no expiry is dropped the ladder is the aged list. -/
theorem Simulator.nextExpiries_none_dropped {α : Type} [LinearOrderedField α]
    (current xs : List α) (hne : xs ≠ []) (hpos : ∀ x ∈ xs, 0 < x) :
    Simulator.nextExpiries current (xs.map fun x => x + (Config.TIME_STEP : α)) = some xs := by
  unfold Simulator.nextExpiries
  have hemp : (xs.map fun x => x + (Config.TIME_STEP : α)).isEmpty = false := by
    cases xs with
    | nil => exact absurd rfl hne
    | cons a t => rfl
  simp only [hemp, Bool.false_eq_true, if_false, Simulator.ageExpiries_map_add xs hpos,
    List.length_map, Nat.sub_self]
  rfl

/-- The default ladder is 4, 11, 18, ..., 179. -/
theorem Config.getExpiries_eq :
    Config.getExpiries = [4, 11, 18, 25, 32, 39, 46, 53, 60, 67, 74, 81, 88, 95, 102, 109,
      116, 123, 130, 137, 144, 151, 158, 165, 172, 179] := by
  decide

/-- Whenever `initializeMarket` returns a market, that market has time index 0, interest
rate 0.05 and the default ladder as its expiries: the baseline is built one step early
and the step drops no expiry. -/
theorem Simulator.initializeMarket_fields (r z1 z2 : ℝ) (next : Market ℝ)
    (h : Simulator.initializeMarket r z1 z2 = some next) :
    next.time = 0 ∧ next.interestRate = 0.05 ∧
      next.volSurface.expiries = Config.getExpiries.map fun (e : Int) => (e : ℝ) := by
  unfold Simulator.initializeMarket at h
  simp only [Option.bind_eq_bind] at h
  obtain ⟨vs, _, hstep⟩ := Option.bind_eq_some.mp h
  have hne : (Config.getExpiries.map fun (e : Int) => (e : ℝ)) ≠ [] := by
    intro hnil
    rw [Config.getExpiries_eq] at hnil
    exact List.cons_ne_nil _ _ hnil
  have hpos : ∀ x ∈ (Config.getExpiries.map fun (e : Int) => (e : ℝ)), 0 < x := by
    intro x hx
    simp only [Config.getExpiries, List.mem_map] at hx
    obtain ⟨e, ⟨i, hmem, rfl⟩, rfl⟩ := hx
    have hi : (0 : Int) ≤ i := by
      simp at hmem
      obtain ⟨n, _, rfl⟩ := hmem
      exact Int.natCast_nonneg n
    have : (0 : ℝ) ≤ ((i : Int) : ℝ) := by exact_mod_cast hi
    push_cast
    linarith
  have hladder := Simulator.simulateNextMarket_expiries _ next _ _ r z1 z2 hstep
  rw [Simulator.nextExpiries_none_dropped _ _ hne hpos] at hladder
  unfold Simulator.simulateNextMarket at hstep
  simp only [Option.bind_eq_bind, Option.pure_def] at hstep
  obtain ⟨filtered, _, h2⟩ := Option.bind_eq_some.mp hstep
  obtain ⟨vs2, _, h3⟩ := Option.bind_eq_some.mp h2
  split_ifs at h3
  rw [← Option.some.inj h3]
  refine ⟨?_, rfl, ?_⟩
  · simp [Config.TIME_STEP]
  · rw [← Option.some.inj h3] at hladder
    exact (Option.some.inj hladder).symm

/-! ## Index safety of the smile lookup -/

/-- A smile queried at its own first strike: neither guard fires, the lower bound is
index 0 and the read of `normStrikes[idx - 1]` is before the vector. -/
theorem Smile.getVol_first_strike {α : Type} [LinearOrderedField α] (s : Smile α)
    (hn : s.normStrikes ≠ []) (hsorted : s.normStrikes.Sorted (· ≤ ·)) :
    lowerBound s.normStrikes (s.normStrikes.head hn) = 0 ∧
      s.getVol (s.normStrikes.head hn) = none := by
  have hlb : lowerBound s.normStrikes (s.normStrikes.head hn) = 0 := by
    apply lowerBound_of_le_head _ _ hsorted
    intro h
    rw [head_eq_getElem_zero _ hn h]
  refine ⟨hlb, ?_⟩
  have hle := sorted_head_le_getLast hsorted hn
  unfold Smile.getVol
  rw [List.getLast?_eq_getLast _ hn, List.head?_eq_head hn]
  simp only [Option.bind_eq_bind, Option.some_bind, gt_iff_lt, not_lt.mpr hle, if_false,
    lt_irrefl, hlb]
  have hdown : vecAt s.normStrikes (((0 : Nat) : Int) - 1) = none := by
    simp [vecAt]
  rw [hdown]
  cases vecAt s.normStrikes ((0 : Nat) : Int) <;> rfl

/-- C29: the example smile (strikes -1, 0, 1, strictly increasing, three vols) queried
at its first strike, and the one-point smile queried at its only strike, both reach
the interpolating branch with lower-bound index 0, where index `idx - 1 = -1` is not a
valid index, and `getVol` has no value. -/
theorem Smile.getVol_first_strike_out_of_bounds :
    (exampleSmile ℚ).normStrikes.Sorted (· < ·) ∧
      (exampleSmile ℚ).volPoints.length = (exampleSmile ℚ).normStrikes.length ∧
      lowerBound (exampleSmile ℚ).normStrikes (-1) = 0 ∧
      vecAt (exampleSmile ℚ).normStrikes ((0 : Int) - 1) = none ∧
      (exampleSmile ℚ).getVol (-1) = none ∧
      lowerBound ([0] : List ℚ) 0 = 0 ∧
      vecAt ([0] : List ℚ) ((0 : Int) - 1) = none ∧
      (⟨[0], [1 / 5]⟩ : Smile ℚ).getVol 0 = none := by
  have h1 := Smile.getVol_first_strike (exampleSmile ℚ) (by simp [exampleSmile])
    (sorted_lt_le exampleSmile_sorted)
  have h2 := Smile.getVol_first_strike (⟨[0], [1 / 5]⟩ : Smile ℚ) (by simp) (by simp)
  refine ⟨exampleSmile_sorted, rfl, h1.1, by simp [vecAt], h1.2, h2.1, by simp [vecAt], h2.2⟩

/-! ## The butterfly detector -/

/-- The inner loop flags exactly when three consecutive vol points have a second
difference of total variance below `-1e-8`. -/
theorem VolSurface.butterflyInSmile_iff {α : Type} [LinearOrderedField α] (T : α) :
    ∀ vols : List α, VolSurface.butterflyInSmile T vols = true ↔
      ∃ i down mid up, vols[i]? = some down ∧ vols[i + 1]? = some mid ∧
        vols[i + 2]? = some up ∧
        up * up * T - 2 * (mid * mid * T) + down * down * T < -1e-8 := by
  intro vols
  induction vols with
  | nil => simp [VolSurface.butterflyInSmile]
  | cons d rest ih =>
    cases rest with
    | nil => simp [VolSurface.butterflyInSmile]
    | cons m rest2 =>
      cases rest2 with
      | nil => simp [VolSurface.butterflyInSmile]
      | cons u rest3 =>
        unfold VolSurface.butterflyInSmile
        by_cases hc : u * u * T - 2 * (m * m * T) + d * d * T < -1e-8
        · simp only [hc, if_true, true_iff]
          exact ⟨0, d, m, u, by simp, by simp, by simp, hc⟩
        · simp only [hc, if_false]
          rw [ih]
          constructor
          · rintro ⟨i, a, b, c, ha, hb, hcc, hlt⟩
            exact ⟨i + 1, a, b, c, by simpa using ha, by simpa using hb, by simpa using hcc, hlt⟩
          · rintro ⟨i, a, b, c, ha, hb, hcc, hlt⟩
            cases i with
            | zero =>
              simp only [List.getElem?_cons_zero, List.getElem?_cons_succ, Option.some.injEq,
                zero_add] at ha hb hcc
              subst ha hb hcc
              exact absurd hlt hc
            | succ j =>
              exact ⟨j, a, b, c, by simpa using ha, by simpa using hb, by simpa using hcc, hlt⟩

/-- The outer loop over in-range indices returns, and flags exactly when one of the
smiles it visits has at least three strikes and a flagged triple. -/
theorem VolSurface.butterflyLoop_iff {α : Type} [LinearOrderedField α] (s : VolSurface α) :
    ∀ idxs : List Nat, (∀ idx ∈ idxs, idx < s.smiles.length ∧ idx < s.expiries.length) →
      (VolSurface.butterflyLoop s idxs = some true ∨
          VolSurface.butterflyLoop s idxs = some false) ∧
        (VolSurface.butterflyLoop s idxs = some true ↔
          ∃ idx ∈ idxs, ∃ smile expiry, s.smiles[idx]? = some smile ∧
            s.expiries[idx]? = some expiry ∧ 3 ≤ smile.normStrikes.length ∧
            VolSurface.butterflyInSmile (expiry / 365) smile.volPoints = true) := by
  intro idxs
  induction idxs with
  | nil => intro _; simp [VolSurface.butterflyLoop]
  | cons idx rest ih =>
    intro h
    obtain ⟨hs, he⟩ := h idx (List.mem_cons_self _ _)
    have ih2 := ih fun j hj => h j (List.mem_cons_of_mem _ hj)
    unfold VolSurface.butterflyLoop
    simp only [List.getElem?_eq_getElem hs, List.getElem?_eq_getElem he, Option.bind_eq_bind,
      Option.some_bind, List.mem_cons, exists_eq_or_imp, Option.some.injEq, exists_and_left,
      exists_eq_left']
    by_cases h3 : s.smiles[idx].normStrikes.length < 3
    · simp only [h3, if_true]
      refine ⟨ih2.1, ?_⟩
      rw [ih2.2]
      constructor
      · intro hex
        exact Or.inr (by simpa using hex)
      · rintro (⟨hge, _⟩ | hex)
        · omega
        · simpa using hex
    · simp only [h3, if_false]
      cases hb : VolSurface.butterflyInSmile (s.expiries[idx] / 365) s.smiles[idx].volPoints with
      | true =>
        simp only [if_true, true_or, true_iff]
        exact ⟨trivial, Or.inl ⟨by omega, trivial⟩⟩
      | false =>
        simp only [Bool.false_eq_true, if_false, and_false, false_or]
        refine ⟨ih2.1, ?_⟩
        rw [ih2.2]
        constructor
        · intro hex
          simpa using hex
        · intro hex
          simpa using hex

/-- C22: on a surface with as many smiles as expiries the butterfly detector returns,
and it returns true exactly when some smile with at least three strikes has three
consecutive vol points whose total variances `w = vol^2 * expiry / 365` satisfy
`w_up - 2 * w_mid + w_down < -1e-8`; in particular a middle variance above the average
of its two neighbours by more than `1e-8` is flagged. -/
theorem VolSurface.hasButterflyArbitrage_iff {α : Type} [LinearOrderedField α]
    (s : VolSurface α) (hlen : s.smiles.length = s.expiries.length) :
    (s.hasButterflyArbitrage = some true ∨ s.hasButterflyArbitrage = some false) ∧
      (s.hasButterflyArbitrage = some true ↔
        ∃ (idx : Nat) (smile : Smile α) (expiry : α) (i : Nat) (down mid up : α),
          s.smiles[idx]? = some smile ∧
          s.expiries[idx]? = some expiry ∧ 3 ≤ smile.normStrikes.length ∧
          smile.volPoints[i]? = some down ∧ smile.volPoints[i + 1]? = some mid ∧
          smile.volPoints[i + 2]? = some up ∧
          up * up * (expiry / 365) - 2 * (mid * mid * (expiry / 365))
            + down * down * (expiry / 365) < -1e-8) ∧
      (∀ (idx : Nat) (smile : Smile α) (expiry : α) (i : Nat) (down mid up : α),
        s.smiles[idx]? = some smile →
        s.expiries[idx]? = some expiry → 3 ≤ smile.normStrikes.length →
        smile.volPoints[i]? = some down → smile.volPoints[i + 1]? = some mid →
        smile.volPoints[i + 2]? = some up →
        (down * down * (expiry / 365) + up * up * (expiry / 365)) / 2 + 1e-8
          < mid * mid * (expiry / 365) →
        s.hasButterflyArbitrage = some true) := by
  have hloop := VolSurface.butterflyLoop_iff s (List.range s.expiries.length)
    (fun idx hidx => by
      rw [List.mem_range] at hidx
      exact ⟨hlen ▸ hidx, hidx⟩)
  have hiff : s.hasButterflyArbitrage = some true ↔
      ∃ (idx : Nat) (smile : Smile α) (expiry : α) (i : Nat) (down mid up : α),
          s.smiles[idx]? = some smile ∧
        s.expiries[idx]? = some expiry ∧ 3 ≤ smile.normStrikes.length ∧
        smile.volPoints[i]? = some down ∧ smile.volPoints[i + 1]? = some mid ∧
        smile.volPoints[i + 2]? = some up ∧
        up * up * (expiry / 365) - 2 * (mid * mid * (expiry / 365))
          + down * down * (expiry / 365) < -1e-8 := by
    unfold VolSurface.hasButterflyArbitrage
    rw [hloop.2]
    constructor
    · rintro ⟨idx, _, smile, expiry, hs, he, h3, hb⟩
      obtain ⟨i, down, mid, up, h⟩ := (VolSurface.butterflyInSmile_iff _ _).mp hb
      exact ⟨idx, smile, expiry, i, down, mid, up, hs, he, h3, h⟩
    · rintro ⟨idx, smile, expiry, i, down, mid, up, hs, he, h3, h⟩
      have hidx : idx < s.expiries.length := by
        by_contra hge
        rw [List.getElem?_eq_none (not_lt.mp hge)] at he
        exact Option.noConfusion he
      exact ⟨idx, List.mem_range.mpr hidx, smile, expiry, hs, he, h3,
        (VolSurface.butterflyInSmile_iff _ _).mpr ⟨i, down, mid, up, h⟩⟩
  refine ⟨hloop.1, hiff, ?_⟩
  intro idx smile expiry i down mid up hs he h3 hd hm hu hgt
  refine hiff.mpr ⟨idx, smile, expiry, i, down, mid, up, hs, he, h3, hd, hm, hu, ?_⟩
  have hpos : (0 : α) < 1e-8 := by norm_num
  have hneg : -(2 * (1e-8 : α)) < -1e-8 := by linarith
  linarith

/-- The smile with vols 0.10, 0.20, 0.22 at one year: its middle variance 0.04 is above
the average 0.0292 of its neighbours, and the detector flags it. -/
theorem VolSurface.hasButterflyArbitrage_iff_witness :
    (unevenSurface ℚ).hasButterflyArbitrage = some true :=
  (VolSurface.hasButterflyArbitrage_iff (unevenSurface ℚ) rfl).2.2 0
    ⟨[0, 1, 11 / 10], [1 / 10, 1 / 5, 11 / 50]⟩ 365 0 (1 / 10) (1 / 5) (11 / 50)
    rfl rfl (by simp) rfl rfl rfl (by norm_num)

/-- On evenly spaced strikes a strictly convex total variance has no flagged triple. -/
theorem VolSurface.butterflyInSmile_convex_even {α : Type} [LinearOrderedField α] (T : α) :
    ∀ (vols xs : List α), vols.length = xs.length → xs.Sorted (· < ·) → evenlySpaced xs →
      strictlyConvexPoints (xs.zip (vols.map fun vol => vol * vol * T)) →
      VolSurface.butterflyInSmile T vols = false := by
  intro vols
  induction vols with
  | nil => intro _ _ _ _ _; rfl
  | cons d rest ih =>
    intro xs hlen hsorted heven hconvex
    cases rest with
    | nil => rfl
    | cons m rest2 =>
      cases rest2 with
      | nil => rfl
      | cons u rest3 =>
        match xs, hlen, hsorted, heven, hconvex with
        | x0 :: x1 :: x2 :: xr, hlen, hsorted, heven, hconvex =>
          simp only [List.map_cons, List.zip_cons_cons, strictlyConvexPoints] at hconvex
          simp only [evenlySpaced] at heven
          have h01 : x0 < x1 := by
            have := List.rel_of_sorted_cons hsorted x1 (List.mem_cons_self _ _)
            exact this
          have hd01 : 0 < x1 - x0 := sub_pos.mpr h01
          have hslope := hconvex.1
          rw [← heven.1, div_lt_div_iff_of_pos_right hd01] at hslope
          have htail := ih (x1 :: x2 :: xr) (by simpa using hlen) hsorted.of_cons heven.2
            (by simpa using hconvex.2)
          unfold VolSurface.butterflyInSmile
          have hno : ¬ (u * u * T - 2 * (m * m * T) + d * d * T < -1e-8) := by
            have hpos : (0 : α) < 1e-8 := by norm_num
            intro hlt
            linarith
          simp only [hno, if_false]
          exact htail

/-- C23: on a surface with as many smiles as expiries whose smiles pair every
strike with a vol, have strictly increasing, evenly spaced strikes and a total variance
`vol^2 * expiry / 365` that is strictly convex over those points, the butterfly detector
returns false. -/
theorem VolSurface.hasButterflyArbitrage_convex_even {α : Type} [LinearOrderedField α]
    (s : VolSurface α) (hlen : s.smiles.length = s.expiries.length)
    (hconvex : ∀ (idx : Nat) (smile : Smile α) (expiry : α), s.smiles[idx]? = some smile →
      s.expiries[idx]? = some expiry →
      smile.volPoints.length = smile.normStrikes.length ∧
        smile.normStrikes.Sorted (· < ·) ∧ evenlySpaced smile.normStrikes ∧
        strictlyConvexPoints (smile.totalVariancePoints (expiry / 365))) :
    s.hasButterflyArbitrage = some false := by
  have hloop := VolSurface.butterflyLoop_iff s (List.range s.expiries.length)
    (fun idx hidx => by
      rw [List.mem_range] at hidx
      exact ⟨hlen ▸ hidx, hidx⟩)
  unfold VolSurface.hasButterflyArbitrage
  rcases hloop.1 with htrue | hfalse
  · obtain ⟨idx, _, smile, expiry, hs, he, _, hb⟩ := hloop.2.mp htrue
    obtain ⟨hl, hsorted, heven, hcv⟩ := hconvex idx smile expiry hs he
    rw [VolSurface.butterflyInSmile_convex_even _ _ _ hl hsorted heven hcv] at hb
    exact Bool.noConfusion hb
  · exact hfalse

/-- The example smile (strikes -1, 0, 1, vols 0.20, 0.18, 0.22) at 30 days is convex in
total variance on evenly spaced strikes, and the detector returns false. -/
theorem VolSurface.hasButterflyArbitrage_convex_even_witness :
    (singleExpirySurface ℚ).hasButterflyArbitrage = some false :=
  VolSurface.hasButterflyArbitrage_convex_even (singleExpirySurface ℚ) rfl (by
    intro idx smile expiry hs he
    cases idx with
    | zero =>
      simp only [singleExpirySurface, List.getElem?_cons_zero, Option.some.injEq] at hs he
      subst hs he
      refine ⟨rfl, exampleSmile_sorted, ?_, ?_⟩
      · simp only [exampleSmile, evenlySpaced]
        norm_num
      · simp only [exampleSmile, Smile.totalVariancePoints, List.map_cons, List.map_nil,
          List.zip_cons_cons, List.zip_nil_right, strictlyConvexPoints]
        norm_num
    | succ j =>
      simp [singleExpirySurface] at hs)

/-- The surface with the single expiry 365 days and the smile with strikes 0, 1, 1.1
and vols 0.10, 0.20, 0.22 has a positive expiry, strictly increasing strikes and a strictly
convex total variance (slopes 0.03 then 0.084), and the butterfly detector returns true
on it: the second difference `0.0484 - 2 * 0.04 + 0.01` is negative. -/
theorem VolSurface.hasButterflyArbitrage_flags_convex_uneven :
    (∀ e ∈ (unevenSurface ℚ).expiries, 0 < e) ∧
      (unevenSurface ℚ).smiles.length = (unevenSurface ℚ).expiries.length ∧
      (∀ smile ∈ (unevenSurface ℚ).smiles,
        smile.volPoints.length = smile.normStrikes.length ∧
          smile.normStrikes.Sorted (· < ·) ∧
          strictlyConvexPoints (smile.totalVariancePoints (365 / 365))) ∧
      (unevenSurface ℚ).hasButterflyArbitrage = some true := by
  refine ⟨?_, rfl, ?_, ?_⟩
  · simp [unevenSurface]
  · intro smile hmem
    simp only [unevenSurface, List.mem_singleton] at hmem
    subst hmem
    refine ⟨rfl, ?_, ?_⟩
    · simp
      norm_num
    · simp only [Smile.totalVariancePoints, List.map_cons, List.map_nil,
        List.zip_cons_cons, List.zip_nil_right, strictlyConvexPoints]
      norm_num
  · have hrange : List.range (unevenSurface ℚ).expiries.length = [0] := rfl
    unfold VolSurface.hasButterflyArbitrage
    rw [hrange]
    simp only [unevenSurface, VolSurface.butterflyLoop, List.getElem?_cons_zero,
      Option.bind_eq_bind, Option.some_bind, List.length_cons, List.length_nil,
      VolSurface.butterflyInSmile]
    norm_num

/-! ## The calendar detector -/

/-- A strike is common to two smiles when it is a strike of the earlier smile and its
two-decimal rounding is that of some strike of the later smile. -/
theorem VolSurface.mem_commonStrikes {α : Type} [LinearOrderedField α] [FloorRing α]
    (smileEarlier smileLater : Smile α) (ns : α) :
    ns ∈ VolSurface.commonStrikes smileEarlier smileLater ↔
      ns ∈ smileEarlier.normStrikes ∧ ∃ nsLater ∈ smileLater.normStrikes,
        |stdRound (ns * 100) / 100 - stdRound (nsLater * 100) / 100| < 1e-6 := by
  unfold VolSurface.commonStrikes
  simp only [List.mem_filter, List.any_eq_true, decide_eq_true_eq]

/-- Whenever the loop over the common strikes of a pair returns, it returns true exactly
when total variance falls by more than `1e-8` at one of them. -/
theorem VolSurface.calendarInPair_eq_some {α : Type} [LinearOrderedField α]
    (expiryEarlier expiryLater : α) (smileEarlier smileLater : Smile α) :
    ∀ (commons : List α) (b : Bool),
      VolSurface.calendarInPair expiryEarlier expiryLater smileEarlier smileLater commons
        = some b →
      (b = true ↔ ∃ ns ∈ commons, ∃ volEarlier volLater,
        smileEarlier.getVol ns = some volEarlier ∧ smileLater.getVol ns = some volLater ∧
        volLater * volLater * expiryLater / 365
          < volEarlier * volEarlier * expiryEarlier / 365 - 1e-8) := by
  intro commons
  induction commons with
  | nil =>
    intro b h
    simp only [VolSurface.calendarInPair, Option.some.injEq] at h
    simp [← h]
  | cons ns rest ih =>
    intro b h
    unfold VolSurface.calendarInPair at h
    simp only [Option.bind_eq_bind] at h
    obtain ⟨vE, hE, h2⟩ := Option.bind_eq_some.mp h
    obtain ⟨vL, hL, h3⟩ := Option.bind_eq_some.mp h2
    by_cases hc : vL * vL * expiryLater / 365 < vE * vE * expiryEarlier / 365 - 1e-8
    · simp only [hc, if_true, Option.some.injEq] at h3
      subst h3
      simp only [true_iff]
      exact ⟨ns, List.mem_cons_self _ _, vE, vL, hE, hL, hc⟩
    · simp only [hc, if_false] at h3
      rw [ih b h3]
      constructor
      · rintro ⟨x, hx, rest2⟩
        exact ⟨x, List.mem_cons_of_mem _ hx, rest2⟩
      · rintro ⟨x, hx, a, c, ha, hcc, hlt⟩
        rcases List.mem_cons.mp hx with rfl | hmem
        · rw [hE] at ha
          rw [hL] at hcc
          cases ha
          cases hcc
          exact absurd hlt hc
        · exact ⟨x, hmem, a, c, ha, hcc, hlt⟩

/-- Whenever the loop over the pairs returns, it returns true exactly when some pair it
visits has a common strike at which total variance falls by more than `1e-8`. -/
theorem VolSurface.calendarLoop_eq_some {α : Type} [LinearOrderedField α] [FloorRing α]
    (s : VolSurface α) :
    ∀ (idxs : List Nat) (b : Bool), VolSurface.calendarLoop s idxs = some b →
      (b = true ↔ ∃ i ∈ idxs, ∃ (expiryEarlier expiryLater : α)
        (smileEarlier smileLater : Smile α) (ns volEarlier volLater : α),
        s.expiries[i]? = some expiryEarlier ∧ s.expiries[i + 1]? = some expiryLater ∧
        s.smiles[i]? = some smileEarlier ∧ s.smiles[i + 1]? = some smileLater ∧
        ns ∈ VolSurface.commonStrikes smileEarlier smileLater ∧
        smileEarlier.getVol ns = some volEarlier ∧ smileLater.getVol ns = some volLater ∧
        volLater * volLater * expiryLater / 365
          < volEarlier * volEarlier * expiryEarlier / 365 - 1e-8) := by
  intro idxs
  induction idxs with
  | nil =>
    intro b h
    simp only [VolSurface.calendarLoop, Option.some.injEq] at h
    simp [← h]
  | cons i rest ih =>
    intro b h
    unfold VolSurface.calendarLoop at h
    simp only [Option.bind_eq_bind] at h
    obtain ⟨eE, hEE, h2⟩ := Option.bind_eq_some.mp h
    obtain ⟨eL, hEL, h3⟩ := Option.bind_eq_some.mp h2
    obtain ⟨sE, hSE, h4⟩ := Option.bind_eq_some.mp h3
    obtain ⟨sL, hSL, h5⟩ := Option.bind_eq_some.mp h4
    obtain ⟨found, hfound, h6⟩ := Option.bind_eq_some.mp h5
    have hpair := VolSurface.calendarInPair_eq_some eE eL sE sL _ found hfound
    cases found with
    | true =>
      simp only [if_true, Option.some.injEq] at h6
      subst h6
      simp only [true_iff]
      obtain ⟨ns, hns, vE, vL, hvE, hvL, hlt⟩ := hpair.mp rfl
      exact ⟨i, List.mem_cons_self _ _, eE, eL, sE, sL, ns, vE, vL, hEE, hEL, hSE, hSL, hns,
        hvE, hvL, hlt⟩
    | false =>
      simp only [Bool.false_eq_true, if_false] at h6
      rw [ih b h6]
      constructor
      · rintro ⟨j, hj, rest2⟩
        exact ⟨j, List.mem_cons_of_mem _ hj, rest2⟩
      · rintro ⟨j, hj, a1, a2, a3, a4, ns, vE, vL, g1, g2, g3, g4, hns, hvE, hvL, hlt⟩
        rcases List.mem_cons.mp hj with rfl | hmem
        · rw [hEE] at g1
          rw [hEL] at g2
          rw [hSE] at g3
          rw [hSL] at g4
          cases g1
          cases g2
          cases g3
          cases g4
          have := hpair.mpr ⟨ns, hns, vE, vL, hvE, hvL, hlt⟩
          exact Bool.noConfusion this
        · exact ⟨j, hmem, a1, a2, a3, a4, ns, vE, vL, g1, g2, g3, g4, hns, hvE, hvL, hlt⟩

/-- Whenever the calendar detector returns, it returns true exactly when, for some
adjacent pair of expiries, total variance falls by more than `1e-8` at a strike of the
earlier smile that matches a strike of the later smile after rounding to two decimals;
with fewer than two expiries it returns false. -/
theorem VolSurface.hasCalendarArbitrage_eq_some {α : Type} [LinearOrderedField α]
    [FloorRing α] (s : VolSurface α) :
    (∀ b : Bool, s.hasCalendarArbitrage = some b →
      (b = true ↔ ∃ (i : Nat) (expiryEarlier expiryLater : α)
        (smileEarlier smileLater : Smile α) (ns volEarlier volLater : α),
        s.expiries[i]? = some expiryEarlier ∧ s.expiries[i + 1]? = some expiryLater ∧
        s.smiles[i]? = some smileEarlier ∧ s.smiles[i + 1]? = some smileLater ∧
        ns ∈ VolSurface.commonStrikes smileEarlier smileLater ∧
        smileEarlier.getVol ns = some volEarlier ∧ smileLater.getVol ns = some volLater ∧
        volLater * volLater * expiryLater / 365
          < volEarlier * volEarlier * expiryEarlier / 365 - 1e-8)) ∧
      (s.expiries.length < 2 → s.hasCalendarArbitrage = some false) := by
  constructor
  · intro b h
    unfold VolSurface.hasCalendarArbitrage at h
    rw [VolSurface.calendarLoop_eq_some s _ b h]
    constructor
    · rintro ⟨i, _, rest⟩
      exact ⟨i, rest⟩
    · rintro ⟨i, eE, eL, sE, sL, ns, vE, vL, g1, g2, g3, g4, rest⟩
      have hi : i + 1 < s.expiries.length := by
        by_contra hge
        rw [List.getElem?_eq_none (not_lt.mp hge)] at g2
        exact Option.noConfusion g2
      exact ⟨i, List.mem_range.mpr (by omega), eE, eL, sE, sL, ns, vE, vL, g1, g2, g3, g4, rest⟩
  · intro h
    have hzero : s.expiries.length - 1 = 0 := by omega
    unfold VolSurface.hasCalendarArbitrage
    rw [hzero]
    rfl

/-- When the first strike of the first smile is also a strike of the second smile, the
calendar detector looks the first smile up at its own first strike, a read before the
vector, and has no value. -/
theorem VolSurface.hasCalendarArbitrage_shared_first_strike {α : Type}
    [LinearOrderedField α] [FloorRing α] (e0 e1 est : α) (es : List α) (s0 s1 : Smile α)
    (ss : List (Smile α)) (hn : s0.normStrikes ≠ [])
    (hsorted : s0.normStrikes.Sorted (· ≤ ·))
    (hshared : s0.normStrikes.head hn ∈ s1.normStrikes) :
    (⟨e0 :: e1 :: es, s0 :: s1 :: ss, est⟩ : VolSurface α).hasCalendarArbitrage = none := by
  obtain ⟨x0, xs, hx⟩ := List.exists_cons_of_ne_nil hn
  have hhead : s0.normStrikes.head hn = x0 := by simp [hx]
  have hcommon : ∃ cs, VolSurface.commonStrikes s0 s1 = x0 :: cs := by
    unfold VolSurface.commonStrikes
    rw [hx, List.filter_cons]
    have hpass : (s1.normStrikes.any fun nsLater =>
        decide (|stdRound (x0 * 100) / 100 - stdRound (nsLater * 100) / 100| < 1e-6))
          = true := by
      rw [List.any_eq_true]
      refine ⟨x0, hhead ▸ hshared, ?_⟩
      simp only [sub_self, abs_zero, decide_eq_true_eq]
      norm_num
    simp only [hpass, if_true]
    exact ⟨_, rfl⟩
  obtain ⟨cs, hcs⟩ := hcommon
  have hvol : s0.getVol x0 = none := hhead ▸ (Smile.getVol_first_strike s0 hn hsorted).2
  have hrange : List.range ((e0 :: e1 :: es).length - 1)
      = 0 :: (List.range es.length).map Nat.succ := by
    simp only [List.length_cons, Nat.add_sub_cancel]
    exact List.range_succ_eq_map es.length
  unfold VolSurface.hasCalendarArbitrage
  simp only [hrange]
  unfold VolSurface.calendarLoop
  simp only [List.getElem?_cons_zero, List.getElem?_cons_succ, zero_add, Option.bind_eq_bind,
    Option.some_bind, hcs]
  unfold VolSurface.calendarInPair
  simp only [hvol, Option.bind_eq_bind, Option.none_bind]

/-- C24: the surface with expiries 30 and 60 days, the example smile at 30 days and the
vol 0.05 on the same strikes -1, 0, 1 at 60 days has sorted non-empty smiles, and at the
common strike 0 total variance falls from 30 to 60 days by more than `1e-8`; the
detector, which visits the common strike -1 first and looks the earlier smile up at its
own first strike, reads before the vector and returns nothing. -/
theorem VolSurface.hasCalendarArbitrage_undefined_on_shared_grid :
    (∀ smile ∈ (fallingSurface ℚ).smiles,
        smile.normStrikes ≠ [] ∧ smile.normStrikes.Sorted (· < ·)) ∧
      (fallingSurface ℚ).expiries = [30, 60] ∧
      (0 : ℚ) ∈ VolSurface.commonStrikes (exampleSmile ℚ) (lowSmile ℚ) ∧
      (exampleSmile ℚ).getVol 0 = some 0.18 ∧ (lowSmile ℚ).getVol 0 = some 0.05 ∧
      (0.05 : ℚ) * 0.05 * 60 / 365 < 0.18 * 0.18 * 30 / 365 - 1e-8 ∧
      (exampleSmile ℚ).getVol (-1) = none ∧
      (fallingSurface ℚ).hasCalendarArbitrage = none := by
  have hlb : lowerBound ([-1, 0, 1] : List ℚ) 0 = 1 := by
    simp [lowerBound, lowerBoundLoop]
  refine ⟨?_, rfl, ?_, exampleSmile_getVol_zero, ?_, by norm_num, ?_, ?_⟩
  · intro smile hmem
    simp only [fallingSurface, List.mem_cons, List.mem_singleton, List.not_mem_nil,
      or_false] at hmem
    rcases hmem with rfl | rfl
    · exact ⟨by simp [exampleSmile], exampleSmile_sorted⟩
    · exact ⟨by simp [lowSmile], by simp [lowSmile]⟩
  · rw [VolSurface.mem_commonStrikes]
    refine ⟨by simp [exampleSmile], 0, by simp [lowSmile], ?_⟩
    simp only [sub_self, abs_zero]
    norm_num
  · simp [Smile.getVol, lowSmile, hlb, vecAt]
  · exact (Smile.getVol_first_strike (exampleSmile ℚ) (by simp [exampleSmile])
      (sorted_lt_le exampleSmile_sorted)).2
  · exact VolSurface.hasCalendarArbitrage_shared_first_strike 30 60 0.2 [] (exampleSmile ℚ)
      (lowSmile ℚ) [] (by simp [exampleSmile]) (sorted_lt_le exampleSmile_sorted)
      (by simp [exampleSmile, lowSmile])

/-! ## The term blend and the price of a future -/

/-- C27: the weight `exp(-|expiry - 30| / 365)` lies in `(0, 1]`; the radicand
`mean^2 + w * (est^2 - mean^2)` is non-negative, whatever the sign of the estimate; the
square of the blended ATM vol is that radicand and lies between `mean^2` and `est^2`; at
expiry 30 the blended ATM vol is `|est|`; and it is the ATM vol the constructor uses for
the smile of the expiry. -/
theorem VolSurface.blendedAtmVol_convex_combination (est mean expiry skew convexity spot
    rate : ℝ) :
    0 < VolSurface.termWeight expiry ∧ VolSurface.termWeight expiry ≤ 1 ∧
      0 ≤ mean * mean + VolSurface.termWeight expiry * (est * est - mean * mean) ∧
      VolSurface.blendedAtmVol est mean expiry ^ 2
        = mean * mean + VolSurface.termWeight expiry * (est * est - mean * mean) ∧
      min (mean ^ 2) (est ^ 2) ≤ VolSurface.blendedAtmVol est mean expiry ^ 2 ∧
      VolSurface.blendedAtmVol est mean expiry ^ 2 ≤ max (mean ^ 2) (est ^ 2) ∧
      VolSurface.blendedAtmVol est mean 30 = |est| ∧
      VolSurface.smileFor est skew convexity mean spot rate expiry =
        ⟨Utils.getNormStrikes spot rate expiry (VolSurface.blendedAtmVol est mean expiry) 40 50,
          (Utils.getNormStrikes spot rate expiry (VolSurface.blendedAtmVol est mean expiry)
            40 50).map fun ns =>
            VolSurface.blendedAtmVol est mean expiry + skew * ns + convexity * ns * ns⟩ := by
  have hw0 : 0 < VolSurface.termWeight expiry := Real.exp_pos _
  have hw1 : VolSurface.termWeight expiry ≤ 1 := by
    unfold VolSurface.termWeight
    rw [Real.exp_le_one_iff]
    have := abs_nonneg (expiry - 30)
    apply div_nonpos_of_nonpos_of_nonneg <;> linarith
  have hm : 0 ≤ mean * mean := mul_self_nonneg mean
  have he : 0 ≤ est * est := mul_self_nonneg est
  have hrad : 0 ≤ mean * mean + VolSurface.termWeight expiry * (est * est - mean * mean) := by
    nlinarith
  have hsq : VolSurface.blendedAtmVol est mean expiry ^ 2
      = mean * mean + VolSurface.termWeight expiry * (est * est - mean * mean) :=
    Real.sq_sqrt hrad
  refine ⟨hw0, hw1, hrad, hsq, ?_, ?_, ?_, rfl⟩
  · rw [hsq]
    rcases le_total (mean ^ 2) (est ^ 2) with h | h
    · rw [min_eq_left h]
      nlinarith
    · rw [min_eq_right h]
      nlinarith
  · rw [hsq]
    rcases le_total (mean ^ 2) (est ^ 2) with h | h
    · rw [max_eq_right h]
      nlinarith
    · rw [max_eq_left h]
      nlinarith
  · unfold VolSurface.blendedAtmVol
    simp only [sub_self, abs_zero, neg_zero, zero_div, Real.exp_zero, one_mul]
    rw [show mean * mean + (est * est - mean * mean) = est ^ 2 by ring]
    exact Real.sqrt_sq_eq_abs est

/-- C21: when the expiry text of a future holds the number of days `d`, `priceFuture`
returns the forward price `spot * exp(rate * d / 365)`; the lot size and the asset of the
future play no part, and the price is the spot when the rate or `d` is 0. -/
theorem Calculator.priceFuture_forward (future : Future) (market : Market ℝ) (d : ℚ)
    (hd : stdStod future.expiry = Except.ok (StodValue.finite d)) :
    Calculator.priceFuture future market
        = Except.ok (some (Utils.getForwardPrice market.spot market.interestRate (d : ℝ))) ∧
      Utils.getForwardPrice market.spot market.interestRate (d : ℝ)
        = market.spot * Real.exp (market.interestRate * (d : ℝ) / 365) ∧
      (∀ (asset : Asset) (lotSize : Int),
        Calculator.priceFuture ⟨asset, future.expiry, lotSize⟩ market
          = Calculator.priceFuture future market) ∧
      (market.interestRate = 0 ∨ d = 0 →
        Calculator.priceFuture future market = Except.ok (some market.spot)) := by
  have hprice : Calculator.priceFuture future market
      = Except.ok (some (Utils.getForwardPrice market.spot market.interestRate (d : ℝ))) := by
    unfold Calculator.priceFuture
    simp only [hd]
    rfl
  refine ⟨hprice, ?_, fun _ _ => rfl, ?_⟩
  · unfold Utils.getForwardPrice
    simp only [mul_div_assoc]
  · intro h
    rw [hprice]
    unfold Utils.getForwardPrice
    rcases h with h | h
    · simp [h]
    · simp [h]

/-- The future with expiry text `30` on the example market (spot 100, rate 0) is priced
at the spot. -/
theorem Calculator.priceFuture_forward_witness :
    Calculator.priceFuture ⟨⟨".NDX"⟩, "30", 1⟩ exampleMarket
      = Except.ok (some exampleMarket.spot) :=
  (Calculator.priceFuture_forward ⟨⟨".NDX"⟩, "30", 1⟩ exampleMarket 30 stdStod_thirty).2.2.2
    (Or.inl rfl)

/-! ## The strike grid and the ordering of the ladder -/

/-- The strike grid as a map over the loop counter. -/
theorem Utils.getNormStrikes_eq_map (spot rate expiry atmVol : ℝ) (halfWidth : Int)
    (step : ℝ) :
    Utils.getNormStrikes spot rate expiry atmVol halfWidth step =
      (List.range (2 * halfWidth + 1).toNat).map fun (j : Nat) =>
        Utils.getNormStrike (spot + ((-halfWidth + (j : Int) : Int) : ℝ) * step)
          (Utils.getForwardPrice spot rate expiry) expiry atmVol := by
  have hcast : ∀ l : List Nat,
      (l.flatMap fun a => [(a : Int)]) = l.map (fun (a : Nat) => (a : Int)) :=
    fun l => (List.map_eq_flatMap _ l).symm
  unfold Utils.getNormStrikes
  simp only [List.bind_eq_flatMap, List.pure_def, hcast, List.map_map, Function.comp_def,
    Int.cast_add, Int.cast_neg, Int.cast_natCast]

/-- Below `INT_MAX` the loop returns the strikes it was given followed by the normalized
strikes of the remaining counter values. -/
theorem Utils.normStrikesLoop_eq (spot forward expiry atmVol : ℝ) (maxStrikeStepDist : Int)
    (strikeStep : ℝ) (hmax : maxStrikeStepDist < INT_MAX) :
    ∀ (n : Nat) (z : Int) (acc : List ℝ), n = (maxStrikeStepDist + 1 - z).toNat →
      Utils.normStrikesLoop spot forward expiry atmVol maxStrikeStepDist strikeStep z acc
        = some (acc ++ (List.range n).map fun (j : Nat) =>
            Utils.getNormStrike (spot + ((z + (j : Int) : Int) : ℝ) * strikeStep) forward
              expiry atmVol) := by
  intro n
  induction n with
  | zero =>
    intro z acc hn
    have hz : ¬ z ≤ maxStrikeStepDist := by omega
    rw [Utils.normStrikesLoop]
    simp [hz]
  | succ n ih =>
    intro z acc hn
    have hz : z ≤ maxStrikeStepDist := by omega
    have hne : z ≠ INT_MAX := by omega
    rw [Utils.normStrikesLoop]
    simp only [hz, hne, if_true, if_false]
    rw [ih (z + 1) _ (by omega), List.range_succ_eq_map, List.map_cons, List.map_map,
      List.append_assoc]
    simp only [List.singleton_append, Nat.cast_zero, add_zero, Function.comp_def,
      Nat.succ_eq_add_one, Nat.cast_add, Nat.cast_one]
    congr 3
    apply List.map_congr_left
    intro j _
    rw [add_assoc z 1 (j : Int), add_comm 1 (j : Int)]

/-- At `maxStrikeStepDist = INT_MAX` the counter reaches `INT_MAX` inside the loop and
its increment overflows: the loop has no result. -/
theorem Utils.normStrikesLoop_overflow (spot forward expiry atmVol strikeStep : ℝ) :
    ∀ (n : Nat) (z : Int) (acc : List ℝ), n = (INT_MAX - z).toNat → z ≤ INT_MAX →
      Utils.normStrikesLoop spot forward expiry atmVol INT_MAX strikeStep z acc = none := by
  intro n
  induction n with
  | zero =>
    intro z acc hn hz
    have heq : z = INT_MAX := by omega
    rw [Utils.normStrikesLoop]
    simp [heq]
  | succ n ih =>
    intro z acc hn hz
    have hne : z ≠ INT_MAX := by omega
    rw [Utils.normStrikesLoop]
    simp only [hz, hne, if_true, if_false]
    exact ih (z + 1) _ (by omega) (by omega)

/-- With spot 3000, one year, ATM vol 1, step 1/1000000 and half width `INT_MAX` the
expiry, ATM vol and step are positive and the lowest strike
`3000 - INT_MAX / 1000000` is positive, and Utils::getNormStrikes returns no list: the
counter reaches `INT_MAX` and its increment overflows. -/
theorem Utils.getNormStrikesInt_overflow :
    (0 : ℝ) < 365 ∧ (0 : ℝ) < 1 ∧ 0 ≤ INT_MAX ∧ (0 : ℝ) < 1 / 1000000 ∧
      (0 : ℝ) < 3000 - (INT_MAX : ℝ) * (1 / 1000000) ∧
      Utils.getNormStrikesInt 3000 0 365 1 INT_MAX (1 / 1000000) = none := by
  refine ⟨by norm_num, by norm_num, by decide, by norm_num, ?_, ?_⟩
  · unfold INT_MAX
    norm_num
  · have hmin : INT_MAX ≠ INT_MIN := by decide
    unfold Utils.getNormStrikesInt
    simp only [hmin, if_false]
    exact Utils.normStrikesLoop_overflow _ _ _ _ _ _ _ _ rfl (by decide)

/-- C25: for a positive expiry, ATM vol and step, a half width from 0 to below
`INT_MAX` and a positive lowest strike `spot - halfWidth * step`, Utils::getNormStrikes
returns a list of `2 * halfWidth + 1` entries, the entry at index `j` being the
normalized strike `log ((spot + (j - halfWidth) * step) / forward)
/ (atmVol * sqrt (expiry / 365))` of the forward
`spot * exp (rate * (expiry / 365))`, and the list is strictly increasing. -/
theorem Utils.getNormStrikes_strictly_increasing (spot rate expiry atmVol : ℝ)
    (halfWidth : Int) (step : ℝ) (he : 0 < expiry) (hv : 0 < atmVol) (hw : 0 ≤ halfWidth)
    (hmax : halfWidth < INT_MAX) (hstep : 0 < step)
    (hlow : 0 < spot - (halfWidth : ℝ) * step) :
    ∃ strikes : List ℝ,
      Utils.getNormStrikesInt spot rate expiry atmVol halfWidth step = some strikes ∧
        strikes = Utils.getNormStrikes spot rate expiry atmVol halfWidth step ∧
        (strikes.length : Int) = 2 * halfWidth + 1 ∧
        (∀ j : Nat, (j : Int) ≤ 2 * halfWidth →
          strikes[j]? = some
            (Real.log ((spot + ((j : ℝ) - (halfWidth : ℝ)) * step)
                / (spot * Real.exp (rate * (expiry / 365))))
              / (atmVol * Real.sqrt (expiry / 365)))) ∧
        strikes.Sorted (· < ·) := by
  have hmin : halfWidth ≠ INT_MIN := by
    unfold INT_MIN
    omega
  have hrun : Utils.getNormStrikesInt spot rate expiry atmVol halfWidth step
      = some (Utils.getNormStrikes spot rate expiry atmVol halfWidth step) := by
    unfold Utils.getNormStrikesInt
    simp only [hmin, if_false]
    rw [Utils.normStrikesLoop_eq spot _ expiry atmVol halfWidth step hmax
      (2 * halfWidth + 1).toNat (-halfWidth) [] (by congr 1; ring),
      Utils.getNormStrikes_eq_map, List.nil_append]
  refine ⟨_, hrun, rfl, ?_⟩
  rw [Utils.getNormStrikes_eq_map]
  have hden : 0 < atmVol * Real.sqrt (expiry / 365) :=
    mul_pos hv (Real.sqrt_pos.mpr (by positivity))
  have hwR : (0 : ℝ) ≤ (halfWidth : ℝ) := by exact_mod_cast hw
  have hspot : 0 < spot := by nlinarith
  have hF : 0 < Utils.getForwardPrice spot rate expiry := mul_pos hspot (Real.exp_pos _)
  have hstrike : ∀ j : Nat, 0 < spot + ((-halfWidth + (j : Int) : Int) : ℝ) * step := by
    intro j
    have hj : (0 : ℝ) ≤ (j : ℝ) := Nat.cast_nonneg j
    push_cast
    nlinarith
  refine ⟨?_, ?_, ?_⟩
  · rw [List.length_map, List.length_range]
    omega
  · intro j hj
    have hjlt : j < (2 * halfWidth + 1).toNat := by omega
    rw [List.getElem?_map, List.getElem?_range hjlt]
    unfold Utils.getNormStrike Utils.getForwardPrice
    simp only [Option.map_some', Int.cast_add, Int.cast_neg, Int.cast_natCast]
    congr 4
    ring
  · unfold List.Sorted
    rw [List.pairwise_map]
    refine (List.pairwise_lt_range _).imp ?_
    intro a b hab
    have hlt : spot + ((-halfWidth + (a : Int) : Int) : ℝ) * step
        < spot + ((-halfWidth + (b : Int) : Int) : ℝ) * step := by
      have habR : (a : ℝ) < (b : ℝ) := by exact_mod_cast hab
      push_cast
      nlinarith
    unfold Utils.getNormStrike
    apply div_lt_div_of_pos_right _ hden
    apply Real.log_lt_log (div_pos (hstrike a) hF)
    exact div_lt_div_of_pos_right hlt hF

/-- The grid around spot 100 with half width 1 and step 10 at one year, rate 0 and ATM
vol 1: Utils::getNormStrikes returns three strictly increasing normalized strikes. -/
theorem Utils.getNormStrikes_strictly_increasing_witness :
    ∃ strikes : List ℝ,
      Utils.getNormStrikesInt 100 0 365 1 1 10 = some strikes ∧
        strikes = Utils.getNormStrikes 100 0 365 1 1 10 ∧
        (strikes.length : Int) = 2 * 1 + 1 ∧
        (∀ j : Nat, (j : Int) ≤ 2 * 1 →
          strikes[j]? = some
            (Real.log ((100 + ((j : ℝ) - ((1 : Int) : ℝ)) * 10)
                / (100 * Real.exp (0 * (365 / 365))))
              / (1 * Real.sqrt (365 / 365)))) ∧
        strikes.Sorted (· < ·) :=
  Utils.getNormStrikes_strictly_increasing 100 0 365 1 1 10 (by norm_num) (by norm_num)
    (by norm_num) (by decide) (by norm_num) (by norm_num)

end omm
